import Mathlib

/-!
Verification of the topology core of the booksim2 fork: the `UniTorus`
(src/networks/unitorus.cpp) and `Cake` (src/networks/cake.cpp) network
builders together with the router metadata surface (src/routers/router.hpp).

The C++ code is embedded shallowly:

* configuration strings are `List Char`; the tokenizers, `atoi`, and the
  validating parsers mirror the corresponding C++ string pipelines
  (`UniTorus::_ComputeSize`, `Cake::_ComputeSize`, `Cake::_ParseElevators`,
  the `parseAndValidate` lambdas of `UniTorus::_ParseDirectionConfig`);
* machine `int` values are modelled as `Int` (all claims stay far from
  overflow; `atoi` overflow is undefined behaviour in C and is modelled as
  exact integer arithmetic);
* the stateful wiring of `Cake::_BuildNet` is modelled as a fold of explicit
  build steps over the exact iteration order of the C++ loops, acting on a
  state that records, per router, the list of output channels in the order
  `Router::AddOutputChannel` appended them, the recorded cake port slots of
  `router.hpp`, and the destination router of every `AddInputChannel` call;
* `UniTorus::Capacity` computes in `double`; it is modelled in exact rational
  arithmetic (`ℚ`), the idealisation of its floating-point arithmetic.
-/

namespace Booksim

/-! ## String utilities shared by both builders -/

/-- Characters treated as trimmable whitespace by the token trimming in
`Cake::_ComputeSize` and `parseAndValidate` (`find_first_not_of(" \t")`). -/
def isTrimWS (c : Char) : Bool := c = ' ' || c = '\t'

/-- Splitting worker: cuts a character list at every occurrence of `sep`,
keeping empty segments, like the repeated `find(',', start)` loops. -/
def splitAux (sep : Char) : List Char → List Char → List (List Char)
  | [], cur => [cur.reverse]
  | c :: rest, cur =>
    if c = sep then cur.reverse :: splitAux sep rest []
    else splitAux sep rest (c :: cur)

/-- Split a character list on a separator, keeping empty segments. -/
def splitOn (sep : Char) (s : List Char) : List (List Char) := splitAux sep s []

/-- Trim leading and trailing spaces and tabs from a token
(`find_first_not_of(" \t")` / `find_last_not_of(" \t")`). -/
def trimWS (t : List Char) : List Char :=
  ((t.dropWhile isTrimWS).reverse.dropWhile isTrimWS).reverse

/-- Drop one leading brace, mirroring `if(!s.empty() && s.front()=='{') s = s.substr(1)`. -/
def stripFront (s : List Char) : List Char :=
  match s with
  | c :: rest => if c = '{' then rest else s
  | [] => []

/-- Drop one trailing brace, mirroring `if(!s.empty() && s.back()=='}') s.pop_back()`. -/
def stripBack (s : List Char) : List Char :=
  if s.getLast? = some '}' then s.dropLast else s

/-- Strip surrounding braces, front first, as both `_ComputeSize` routines do. -/
def stripBraces (s : List Char) : List Char := stripBack (stripFront s)

/-- Digit-accumulation loop of C `atoi`: consume decimal digits, stop at the
first non-digit. -/
def atoiLoop : List Char → Nat → Nat
  | c :: rest, acc =>
    if '0' ≤ c ∧ c ≤ '9' then atoiLoop rest (acc * 10 + (c.toNat - 48)) else acc
  | [], acc => acc

/-- The whitespace class skipped by C `atoi` (`isspace`). -/
def isSpaceCh (c : Char) : Bool :=
  c = ' ' || c = '\t' || c = '\n' || c = '\r' || c = '\x0b' || c = '\x0c'

/-- C `atoi`: skip whitespace, optional sign, then decimal digits; `0` when no
digits are present.  Overflow is undefined behaviour in C and is modelled as
exact integer arithmetic. -/
def atoi (s : List Char) : Int :=
  let s1 := s.dropWhile isSpaceCh
  match s1 with
  | '-' :: rest => -(atoiLoop rest 0 : Int)
  | '+' :: rest => (atoiLoop rest 0 : Int)
  | _ => (atoiLoop s1 0 : Int)

/-- Tokenizer used by `Cake::_ComputeSize` and by the `parseAndValidate`
lambdas of `UniTorus::_ParseDirectionConfig`: strip braces, split on commas,
trim each token, drop empty tokens. -/
def trimmedTokens (s : List Char) : List (List Char) :=
  ((splitOn ',' (stripBraces s)).map trimWS).filter (fun t => !t.isEmpty)

/-- Tokenizer of `UniTorus::_ComputeSize`: strip braces and split on commas;
unlike `trimmedTokens` it performs no trimming and keeps empty tokens. -/
def uniTokens (s : List Char) : List (List Char) :=
  splitOn ',' (stripBraces s)

/-! ## UniTorus configuration ingest (`UniTorus::_ComputeSize`,
`UniTorus::_ParseDirectionConfig`) -/

/-- Convert tokens to integers, requiring every value to be positive
(`if (dim_size <= 0) ... exit(-1)`); the first offending token aborts. -/
def parsePositiveList : List (List Char) → Except String (List Int)
  | [] => Except.ok []
  | t :: rest =>
    if atoi t ≤ 0 then Except.error ("value must be positive")
    else
      match parsePositiveList rest with
      | Except.error e => Except.error e
      | Except.ok vs => Except.ok (atoi t :: vs)

/-- Convert tokens to integers, requiring every value to be non-negative
(the penalty variant `parseAndValidatePenalty`). -/
def parseNonNegList : List (List Char) → Except String (List Int)
  | [] => Except.ok []
  | t :: rest =>
    if atoi t < 0 then Except.error ("value must be non-negative")
    else
      match parseNonNegList rest with
      | Except.error e => Except.error e
      | Except.ok vs => Except.ok (atoi t :: vs)

/-- The legacy process-wide dimension hints `gN`, `gK`, `gDimSizes`. -/
structure Globals where
  gN : Int
  gK : Int
  gDimSizes : List Int
deriving DecidableEq

/-- `UniTorus::_ComputeSize`: reject an empty or `"0"` string, tokenize,
require all sizes positive, and set the globals
`gN = _dim_sizes.size(); gK = _dim_sizes[0]; gDimSizes = _dim_sizes`.
Returns the parsed dimension sizes and the updated globals. -/
def uniTorusComputeSize (s : List Char) (g : Globals) :
    Except String (List Int × Globals) :=
  if s = [] ∨ s = ['0'] then Except.error ("dim_sizes must be specified")
  else
    match parsePositiveList (uniTokens s) with
    | Except.error e => Except.error e
    | Except.ok dims =>
      Except.ok (dims,
        { g with gN := (dims.length : Int), gK := dims.getD 0 0, gDimSizes := dims })

/-- The `parseAndValidate` lambda of `UniTorus::_ParseDirectionConfig`:
an empty or `"0"` string yields the empty list (caller keeps defaults);
otherwise tokenize, require the token count to equal the dimension count,
and require every value positive. -/
def parseAndValidate (numDims : Nat) (s : List Char) : Except String (List Int) :=
  if s = [] ∨ s = ['0'] then Except.ok []
  else
    let toks := trimmedTokens s
    if toks.length ≠ numDims then Except.error ("cardinality mismatch")
    else parsePositiveList toks

/-- The `parseAndValidatePenalty` lambda: as `parseAndValidate` but values
only need to be non-negative. -/
def parseAndValidatePenalty (numDims : Nat) (s : List Char) : Except String (List Int) :=
  if s = [] ∨ s = ['0'] then Except.ok []
  else
    let toks := trimmedTokens s
    if toks.length ≠ numDims then Except.error ("cardinality mismatch")
    else parseNonNegList toks

/-- `UniTorus::_ParseDirectionConfig`: per-dimension defaults
(bandwidth 1, latency 1, penalty 0), overridden by any non-empty parsed
list. -/
def parseDirectionConfig (numDims : Nat) (bs ls ps : List Char) :
    Except String (List Int × List Int × List Int) :=
  match parseAndValidate numDims bs with
  | Except.error e => Except.error e
  | Except.ok bv =>
    match parseAndValidate numDims ls with
    | Except.error e => Except.error e
    | Except.ok lv =>
      match parseAndValidatePenalty numDims ps with
      | Except.error e => Except.error e
      | Except.ok pv =>
        Except.ok
          (if bv.isEmpty then List.replicate numDims 1 else bv,
           if lv.isEmpty then List.replicate numDims 1 else lv,
           if pv.isEmpty then List.replicate numDims 0 else pv)

/-! ## UniTorus coordinate algebra (`_NodeToCoords`, `_CoordsToNode`) -/

/-- `UniTorus::_NodeToCoords`: least-significant-dimension-first mixed radix
(`coords[dim] = temp % _dim_sizes[dim]; temp /= _dim_sizes[dim]`). -/
def nodeToCoords : List Nat → Nat → List Nat
  | [], _ => []
  | s :: rest, n => n % s :: nodeToCoords rest (n / s)

/-- Loop body of `UniTorus::_CoordsToNode` with its `node` and `multiplier`
accumulators (`node += coords[dim] * multiplier; multiplier *= _dim_sizes[dim]`). -/
def coordsToNodeAux : List Nat → List Nat → Nat → Nat → Nat
  | s :: ss, c :: cs, node, mult => coordsToNodeAux ss cs (node + c * mult) (mult * s)
  | _, _, node, _ => node

/-- `UniTorus::_CoordsToNode`. -/
def coordsToNode (sizes coords : List Nat) : Nat := coordsToNodeAux sizes coords 0 1

/-- Accumulator-free form of `coordsToNode`, used only inside proofs. -/
def coordsVal : List Nat → List Nat → Nat
  | s :: ss, c :: cs => c + s * coordsVal ss cs
  | _, _ => 0

/-- `UniTorus::Capacity`: the loop
`total += (double)(_size * _dim_bandwidth[dim]) / (double)_size`,
with `double` modelled as exact rational arithmetic. -/
def uniTorusCapacity (dimSizes dimBandwidth : List Int) : ℚ :=
  (List.range dimSizes.length).foldl
    (fun acc dim =>
      acc + ((dimSizes.prod * dimBandwidth.getD dim 0 : Int) : ℚ) /
        ((dimSizes.prod : Int) : ℚ))
    0

/-! ## Routing-function registry -/

/-- Key set of the process-wide `gRoutingFunctionMap` after an assignment
`gRoutingFunctionMap[name] = f`. -/
def registryInsert (name : String) (reg : List String) : List String :=
  if name ∈ reg then reg else reg ++ [name]

/-- The routing-function name registered by `UniTorus::RegisterRoutingFunctions`. -/
def dimOrderUniTorusName : String := "dim_order_unitorus_unitorus"

/-- The routing-function name the specification expects for Cake. -/
def dorCakeName : String := "dor_cake"

/-- `UniTorus::RegisterRoutingFunctions`:
`gRoutingFunctionMap["dim_order_unitorus_unitorus"] = &dim_order_unitorus`. -/
def uniTorusRegisterRoutingFunctions (reg : List String) : List String :=
  registryInsert dimOrderUniTorusName reg

/-- `Cake::RegisterRoutingFunctions` is an empty TODO body: it registers
nothing. -/
def cakeRegisterRoutingFunctions (reg : List String) : List String := reg

/-! ## Cake configuration ingest (`Cake::_ComputeSize`, `Cake::_ParseElevators`) -/

/-- `Cake::_ComputeSize`: an empty `dim_sizes` is an error; fewer than two
tokens is an error; `x`, `y` come from the first two tokens and `layers`
from the third when present (default 1); all three must be positive.
Tokens beyond the third are ignored. -/
def cakeComputeSize (s : List Char) : Except String (Int × Int × Int) :=
  if s = [] then Except.error ("Cake requires dim_sizes")
  else
    let toks := trimmedTokens s
    if toks.length < 2 then Except.error ("dim_sizes must have at least 2 values")
    else
      let x := atoi (toks.getD 0 [])
      let y := atoi (toks.getD 1 [])
      let layers := if 3 ≤ toks.length then atoi (toks.getD 2 []) else 1
      if x ≤ 0 ∨ y ≤ 0 ∨ layers ≤ 0 then Except.error ("Invalid sizes for Cake")
      else Except.ok (x, y, layers)

/-- Global-hint assignment of `Cake::_ComputeSize`: `gK = _x; gN = 2;`
(`gDimSizes` is not touched). -/
def cakeSetGlobals (x : Int) (g : Globals) : Globals :=
  { g with gK := x, gN := 2 }

/-- `Cake::_ComputeSize` together with its global-hint assignment. -/
def cakeComputeSizeG (s : List Char) (g : Globals) :
    Except String ((Int × Int × Int) × Globals) :=
  match cakeComputeSize s with
  | Except.error e => Except.error e
  | Except.ok xyl => Except.ok (xyl, cakeSetGlobals xyl.1 g)

/-- Elevator-coordinate parsing loop of `Cake::_ParseElevators`: range-check
each pair against `[0,X) × [0,Y)` and collapse duplicates while keeping
first-occurrence order (the `_elevator_index` map). -/
def parseElevCoordsAux (X Y : Nat) (acc : List (Int × Int)) :
    List (Int × Int) → Except String (List (Int × Int))
  | [] => Except.ok acc
  | p :: rest =>
    if p.1 < 0 ∨ (X : Int) ≤ p.1 ∨ p.2 < 0 ∨ (Y : Int) ≤ p.2 then
      Except.error ("elevator coord out of range")
    else
      parseElevCoordsAux X Y (if p ∈ acc then acc else acc ++ [p]) rest

/-- Mapping-entry validation loop of `Cake::_ParseElevators`: each (ex,ey)
pair must lie in `[0,X) × [0,Y)`; nothing else is checked. -/
def parseMappingPairsAux (X Y : Nat) (checked : List (Int × Int)) :
    List (Int × Int) → Except String (List (Int × Int))
  | [] => Except.ok checked
  | p :: rest =>
    if p.1 < 0 ∨ (X : Int) ≤ p.1 ∨ p.2 < 0 ∨ (Y : Int) ≤ p.2 then
      Except.error ("elevator_mapping_coords out of range")
    else parseMappingPairsAux X Y (checked ++ [p]) rest

/-- Group a flat integer stream into consecutive (ex,ey) pairs, as the
`idx` walk of `Cake::_ParseElevators` consumes `nums` two at a time. -/
def pairUp : List Int → List (Int × Int)
  | a :: b :: rest => (a, b) :: pairUp rest
  | _ => []

/-- Row-major `Y × X` mapping table filled from the flat pair stream
(`_elevator_map[ry][rx]` receives pair number `ry*X + rx`). -/
def mapRows (X Y : Nat) (pairs : List (Int × Int)) : List (List (Int × Int)) :=
  (List.range Y).map fun ry => (List.range X).map fun rx => pairs.getD (ry * X + rx) (0, 0)

/-- Default identity mapping: `_elevator_map[ry][rx] = make_pair(rx, ry)`. -/
def identityRows (X Y : Nat) : List (List (Int × Int)) :=
  (List.range Y).map fun ry : Nat =>
    (List.range X).map fun rx : Nat => ((rx : Int), (ry : Int))

/-- `Cake::_ParseElevators` for sizes `X × Y`: parse and dedup the elevator
coordinate pairs, then build the `Y × X` preferred-elevator table, either
from `elevator_mapping_coords` (which must contain exactly `2·X·Y` integers,
each pair range-checked) or as the identity default.  The integer extraction
from the raw strings is taken as given: `epairs` is the extracted list of
elevator coordinate pairs and `mapNums` the extracted flat integer stream of
the mapping key (with `none` for a missing or empty key). -/
def cakeParseElevators (X Y : Nat) (epairs : List (Int × Int))
    (mapNums : Option (List Int)) :
    Except String (List (Int × Int) × List (List (Int × Int))) :=
  match parseElevCoordsAux X Y [] epairs with
  | Except.error e => Except.error e
  | Except.ok elevs =>
    match mapNums with
    | none => Except.ok (elevs, identityRows X Y)
    | some nums =>
      if nums.length ≠ X * Y * 2 then
        Except.error ("elevator_mapping_coords expects 2 X Y integers")
      else
        match parseMappingPairsAux X Y [] (pairUp nums) with
        | Except.error e => Except.error e
        | Except.ok pairs => Except.ok (elevs, mapRows X Y pairs)

/-! ## Cake network wiring (`Cake::_BuildNet`) -/

/-- A directed channel as seen from a router's port list: either flit channel
number `c` of the network inventory (`_chan[c]`), or the ejection channel of
node `n` (`_eject[n]`). -/
inductive Chan where
  | net : Nat → Chan
  | eject : Nat → Chan
deriving DecidableEq

/-- Per-router build state: the output-channel list in `AddOutputChannel`
order, and the recorded cake port slots of `router.hpp` (initialised to
`-1`). -/
structure RouterSt where
  outputs : List Chan
  xp : Int
  yp : Int
  zup : Int
  zdn : Int
  eject : Int
deriving DecidableEq

/-- Fresh router state: no outputs, all port slots `-1`. -/
def RouterSt.init : RouterSt := ⟨[], -1, -1, -1, -1, -1⟩

/-- Global build state: the routers (indexed by node id) and, for every
network flit channel, the router on which `AddInputChannel` registered it
(its destination). -/
structure BuildSt where
  routers : Nat → RouterSt
  dest : Nat → Option Nat

/-- A Cake configuration after `_ComputeSize` and `_ParseElevators`:
sizes `X × Y × Z` (all positive after validation) and the deduplicated,
range-checked elevator list in declaration order. -/
structure CakeCfg where
  X : Nat
  Y : Nat
  Z : Nat
  elevators : List (Nat × Nat)

/-- `_size = _x * _y * _layers`. -/
def CakeCfg.size (cfg : CakeCfg) : Nat := cfg.X * cfg.Y * cfg.Z

/-- `_inplane_channels = _size * 2`. -/
def CakeCfg.inplaneChannels (cfg : CakeCfg) : Nat := cfg.size * 2

/-- `_vertical_channels = _elevators.size() * _layers * 2`. -/
def CakeCfg.verticalChannels (cfg : CakeCfg) : Nat :=
  cfg.elevators.length * cfg.Z * 2

/-- `_channels = _inplane_channels + _vertical_channels`. -/
def CakeCfg.channels (cfg : CakeCfg) : Nat :=
  cfg.inplaneChannels + cfg.verticalChannels

/-- `Cake::_NodeId`: `z * (_x*_y) + y * _x + x`. -/
def CakeCfg.nodeId (cfg : CakeCfg) (x y z : Nat) : Nat :=
  z * (cfg.X * cfg.Y) + y * cfg.X + x

/-- `Cake::_IdToXYZ`, x component: `id % (_x*_y) % _x`. -/
def CakeCfg.idToX (cfg : CakeCfg) (id : Nat) : Nat := id % (cfg.X * cfg.Y) % cfg.X

/-- `Cake::_IdToXYZ`, y component: `id % (_x*_y) / _x`. -/
def CakeCfg.idToY (cfg : CakeCfg) (id : Nat) : Nat := id % (cfg.X * cfg.Y) / cfg.X

/-- `Cake::_IdToXYZ`, z component: `id / (_x*_y)`. -/
def CakeCfg.idToZ (cfg : CakeCfg) (id : Nat) : Nat := id / (cfg.X * cfg.Y)

/-- `Cake::_InplaneChannel`: `node * 2 + dim` (dim 0 = X+, 1 = Y+). -/
def inplaneChannel (node dim : Nat) : Nat := node * 2 + dim

/-- `Cake::_UpChannel`: `_inplane_channels + (elev_idx * _layers + layer) * 2`. -/
def CakeCfg.upChannel (cfg : CakeCfg) (ei z : Nat) : Nat :=
  cfg.inplaneChannels + (ei * cfg.Z + z) * 2

/-- `Cake::_DownChannel`: `_inplane_channels + (elev_idx * _layers + layer) * 2 + 1`. -/
def CakeCfg.downChannel (cfg : CakeCfg) (ei z : Nat) : Nat :=
  cfg.inplaneChannels + (ei * cfg.Z + z) * 2 + 1

/-- Point update of one router's state. -/
def updRouter (rs : Nat → RouterSt) (n : Nat) (f : RouterSt → RouterSt) :
    Nat → RouterSt :=
  fun m => if m = n then f (rs m) else rs m

/-- Record channel `c`'s destination router (the `AddInputChannel` side). -/
def updDest (d : Nat → Option Nat) (c t : Nat) : Nat → Option Nat :=
  fun c2 => if c2 = c then some t else d c2

/-- One iteration of the X+ wiring loop of `Cake::_BuildNet` at `(z,y,x)`:
capture `OutputIndexCount()` into the `xp` slot, append the X+ in-plane
channel as an output, and register it as an input on `((x+1)%X, y, z)`. -/
def xStep (cfg : CakeCfg) (st : BuildSt) (i : Nat × Nat × Nat) : BuildSt :=
  let z := i.1
  let y := i.2.1
  let x := i.2.2
  let src := cfg.nodeId x y z
  let dst := cfg.nodeId ((x + 1) % cfg.X) y z
  let ch := inplaneChannel src 0
  { routers := updRouter st.routers src fun r =>
      { r with xp := (r.outputs.length : Int), outputs := r.outputs ++ [Chan.net ch] },
    dest := updDest st.dest ch dst }

/-- One iteration of the Y+ wiring loop at `(z,y,x)`: record the `yp` slot,
append the Y+ channel as an output, input side on `(x, (y+1)%Y, z)`. -/
def yStep (cfg : CakeCfg) (st : BuildSt) (i : Nat × Nat × Nat) : BuildSt :=
  let z := i.1
  let y := i.2.1
  let x := i.2.2
  let src := cfg.nodeId x y z
  let dst := cfg.nodeId x ((y + 1) % cfg.Y) z
  let ch := inplaneChannel src 1
  { routers := updRouter st.routers src fun r =>
      { r with yp := (r.outputs.length : Int), outputs := r.outputs ++ [Chan.net ch] },
    dest := updDest st.dest ch dst }

/-- One iteration of the vertical wiring loop at elevator index `ei`,
layer `z`: on router `(ex,ey,z)` record `zup`, append the up channel
(destination `(ex,ey,(z+1)%Z)`), then record `zdn` and append the down
channel (destination `(ex,ey,(z-1+Z)%Z)`, written `(z+Z-1)%Z` in `Nat`). -/
def vStep (cfg : CakeCfg) (st : BuildSt) (i : Nat × Nat) : BuildSt :=
  let ei := i.1
  let z := i.2
  let p := cfg.elevators.getD ei (0, 0)
  let src := cfg.nodeId p.1 p.2 z
  let dstUp := cfg.nodeId p.1 p.2 ((z + 1) % cfg.Z)
  let dstDn := cfg.nodeId p.1 p.2 ((z + cfg.Z - 1) % cfg.Z)
  { routers := updRouter st.routers src fun r =>
      let r1 : RouterSt :=
        { r with zup := (r.outputs.length : Int),
                 outputs := r.outputs ++ [Chan.net (cfg.upChannel ei z)] }
      { r1 with zdn := (r1.outputs.length : Int),
                outputs := r1.outputs ++ [Chan.net (cfg.downChannel ei z)] },
    dest := updDest (updDest st.dest (cfg.upChannel ei z) dstUp)
      (cfg.downChannel ei z) dstDn }

/-- One iteration of the injection/ejection loop at node `id`: record the
`eject` slot and append the node's ejection channel as an output. -/
def ejStep (st : BuildSt) (id : Nat) : BuildSt :=
  { st with routers := updRouter st.routers id fun r =>
      { r with eject := (r.outputs.length : Int),
               outputs := r.outputs ++ [Chan.eject id] } }

/-- Iteration order of the two in-plane wiring loops:
`for z { for y { for x { ... } } }`. -/
def tripleItems (X Y Z : Nat) : List (Nat × Nat × Nat) :=
  (List.range Z).flatMap fun z =>
    (List.range Y).flatMap fun y =>
      (List.range X).map fun x => (z, y, x)

/-- Iteration order of the vertical wiring loop:
`for ei { for z { ... } }`. -/
def pairItems (A B : Nat) : List (Nat × Nat) :=
  (List.range A).flatMap fun a => (List.range B).map fun b => (a, b)

/-- `Cake::_BuildNet` wiring, in the exact pass order of the source:
X+ pass, Y+ pass, vertical pass, injection/ejection pass. -/
def CakeCfg.buildNet (cfg : CakeCfg) : BuildSt :=
  let st0 : BuildSt := ⟨fun _ => RouterSt.init, fun _ => none⟩
  let st1 := (tripleItems cfg.X cfg.Y cfg.Z).foldl (xStep cfg) st0
  let st2 := (tripleItems cfg.X cfg.Y cfg.Z).foldl (yStep cfg) st1
  let st3 := (pairItems cfg.elevators.length cfg.Z).foldl (vStep cfg) st2
  (List.range cfg.size).foldl ejStep st3

/-! ## Generic lemmas about keyed folds

A wiring pass is a fold of steps over an item list; each step modifies the
build state only at the locations determined by its item's key.  The two
lemmas below extract the final value of one observation from such a fold. -/

/-- If no step of the fold changes the observation, the fold preserves it. -/
theorem foldl_obs_frame {σ β α : Type _} (step : σ → β → σ) (obs : σ → α)
    (P : β → Prop) (H1 : ∀ st b, P b → obs (step st b) = obs st) :
    ∀ (l : List β) (init : σ), (∀ b ∈ l, P b) →
      obs (l.foldl step init) = obs init := by
  intro l
  induction l with
  | nil => intro init _; rfl
  | cons c t ih =>
    intro init hP
    rw [List.foldl_cons, ih (step init c) fun b hb => hP b (List.mem_cons_of_mem c hb),
      H1 init c (hP c (List.mem_cons_self c t))]

/-- If the keys of the items are pairwise distinct, steps with key different
from `k` do not change the observation, and the step at key `k` transforms it
by `g`, then the fold applies `g` exactly once. -/
theorem foldl_obs_key {σ β α : Type _} (step : σ → β → σ) (obs : σ → α)
    (key : β → Nat) (k : Nat) (g : β → α → α)
    (H1 : ∀ st b, key b ≠ k → obs (step st b) = obs st)
    (H2 : ∀ st b, key b = k → obs (step st b) = g b (obs st)) :
    ∀ (l : List β) (init : σ), (l.map key).Nodup → ∀ b ∈ l, key b = k →
      obs (l.foldl step init) = g b (obs init) := by
  intro l
  induction l with
  | nil => intro init _ b hb; exact absurd hb (List.not_mem_nil b)
  | cons c t ih =>
    intro init hnd b hb hk
    rw [List.map_cons, List.nodup_cons] at hnd
    rcases List.mem_cons.1 hb with hbc | hbt
    · subst hbc
      rw [List.foldl_cons,
        foldl_obs_frame step obs (fun b2 => key b2 ≠ k)
          (fun st b2 hb2 => H1 st b2 hb2) t (step init b)
          (fun b2 hb2 hkb2 => hnd.1 (hk ▸ hkb2 ▸ List.mem_map_of_mem key hb2)),
        H2 init b hk]
    · have hck : key c ≠ k := fun hckk =>
        hnd.1 (hckk.trans hk.symm ▸ List.mem_map_of_mem key hbt)
      rw [List.foldl_cons, ih (step init c) hnd.2 b hbt hk, H1 init c hck]

/-! ## Enumeration of the wiring loop index sets -/

/-- The flattened keys of a two-level counting loop with inner stride `X` and
offset `c` enumerate `c, c+1, …, c + Y*X - 1` in order. -/
theorem flatMap_range_enum (X c : Nat) : ∀ Y : Nat,
    ((List.range Y).flatMap fun y => (List.range X).map fun x => c + y * X + x) =
      (List.range (Y * X)).map fun m => c + m := by
  intro Y
  induction Y with
  | zero => simp
  | succ Y ih =>
    rw [List.range_succ, List.flatMap_append, ih, Nat.succ_mul, List.range_add,
      List.map_append, List.map_map]
    simp [Nat.add_assoc, Function.comp]

/-- Offset-free version of `flatMap_range_enum`. -/
theorem flatMap_range_enum0 (X : Nat) (Y : Nat) :
    ((List.range Y).flatMap fun y => (List.range X).map fun x => y * X + x) =
      List.range (Y * X) := by
  have h := flatMap_range_enum X 0 Y
  simpa using h

/-- The node keys of the in-plane wiring loops enumerate all node ids:
the loop `for z { for y { for x { … } } }` visits `_NodeId(x,y,z)` for every
node id in `[0, X*Y*Z)` exactly once and in increasing order. -/
theorem tripleItems_map_key (X Y Z : Nat) :
    ((tripleItems X Y Z).map fun i => i.1 * (X * Y) + i.2.1 * X + i.2.2) =
      List.range (X * Y * Z) := by
  induction Z with
  | zero => simp [tripleItems]
  | succ Z ih =>
    rw [tripleItems, List.range_succ, List.flatMap_append, List.map_append]
    rw [tripleItems] at ih
    rw [ih, Nat.mul_succ, List.range_add]
    congr 1
    rw [List.flatMap_cons, List.flatMap_nil, List.append_nil, List.map_flatMap]
    have hinner :
        ((List.range Y).flatMap fun y =>
            ((List.range X).map fun x => (Z, y, x)).map fun i =>
              i.1 * (X * Y) + i.2.1 * X + i.2.2) =
          (List.range Y).flatMap fun y =>
            (List.range X).map fun x => Z * (X * Y) + y * X + x := by
      refine List.flatMap_congr ?_
      intro y _
      rw [List.map_map]
      rfl
    rw [hinner, flatMap_range_enum X (Z * (X * Y)) Y, Nat.mul_comm Y X,
      Nat.mul_comm Z (X * Y)]

/-- The slot keys of the vertical wiring loop `for ei { for z { … } }`
enumerate `[0, E*Z)` in order. -/
theorem pairItems_map_key (A B : Nat) :
    ((pairItems A B).map fun i => i.1 * B + i.2) = List.range (A * B) := by
  induction A with
  | zero => simp [pairItems]
  | succ A ih =>
    rw [pairItems, List.range_succ, List.flatMap_append, List.map_append]
    rw [pairItems] at ih
    rw [ih, Nat.succ_mul, List.range_add]
    congr 1
    rw [List.flatMap_cons, List.flatMap_nil, List.append_nil, List.map_map]
    rfl

/-- Membership in the in-plane iteration list is exactly coordinate range. -/
theorem mem_tripleItems {X Y Z x y z : Nat} (hx : x < X) (hy : y < Y) (hz : z < Z) :
    (z, y, x) ∈ tripleItems X Y Z :=
  List.mem_flatMap.2 ⟨z, List.mem_range.2 hz,
    List.mem_flatMap.2 ⟨y, List.mem_range.2 hy,
      List.mem_map.2 ⟨x, List.mem_range.2 hx, rfl⟩⟩⟩

/-- Membership in the vertical iteration list is exactly index range. -/
theorem mem_pairItems {A B a b : Nat} (ha : a < A) (hb : b < B) :
    (a, b) ∈ pairItems A B :=
  List.mem_flatMap.2 ⟨a, List.mem_range.2 ha,
    List.mem_map.2 ⟨b, List.mem_range.2 hb, rfl⟩⟩

theorem mem_tripleItems_bounds {X Y Z : Nat} {i : Nat × Nat × Nat}
    (h : i ∈ tripleItems X Y Z) : i.1 < Z ∧ i.2.1 < Y ∧ i.2.2 < X := by
  rcases List.mem_flatMap.1 h with ⟨z, hz, h2⟩
  rcases List.mem_flatMap.1 h2 with ⟨y, hy, h3⟩
  rcases List.mem_map.1 h3 with ⟨x, hx, rfl⟩
  exact ⟨List.mem_range.1 hz, List.mem_range.1 hy, List.mem_range.1 hx⟩

theorem mem_pairItems_bounds {A B : Nat} {i : Nat × Nat}
    (h : i ∈ pairItems A B) : i.1 < A ∧ i.2 < B := by
  rcases List.mem_flatMap.1 h with ⟨a, ha, h2⟩
  rcases List.mem_map.1 h2 with ⟨b, hb, rfl⟩
  exact ⟨List.mem_range.1 ha, List.mem_range.1 hb⟩

/-! ## Arithmetic of `_NodeId` / `_IdToXYZ` -/

/-- In-plane offset bound: `y*X + x < X*Y` for in-range coordinates. -/
theorem plane_offset_lt {X Y x y : Nat} (hx : x < X) (hy : y < Y) :
    y * X + x < X * Y := by
  calc y * X + x < y * X + X := by omega
    _ = (y + 1) * X := by ring
    _ ≤ Y * X := Nat.mul_le_mul_right X (Nat.succ_le_of_lt hy)
    _ = X * Y := Nat.mul_comm Y X

/-- `_NodeId` lands in `[0, _size)` for in-range coordinates. -/
theorem nodeId_lt (cfg : CakeCfg) {x y z : Nat}
    (hx : x < cfg.X) (hy : y < cfg.Y) (hz : z < cfg.Z) :
    cfg.nodeId x y z < cfg.size := by
  have h1 : y * cfg.X + x < cfg.X * cfg.Y := plane_offset_lt hx hy
  calc cfg.nodeId x y z = z * (cfg.X * cfg.Y) + (y * cfg.X + x) := by
        rw [CakeCfg.nodeId]; ring
    _ < z * (cfg.X * cfg.Y) + cfg.X * cfg.Y := by omega
    _ = (z + 1) * (cfg.X * cfg.Y) := by ring
    _ ≤ cfg.Z * (cfg.X * cfg.Y) :=
        Nat.mul_le_mul_right (cfg.X * cfg.Y) (Nat.succ_le_of_lt hz)
    _ = cfg.size := by rw [CakeCfg.size]; ring

/-- `_IdToXYZ` inverts `_NodeId` on in-range x and y coordinates. -/
theorem idTo_nodeId (cfg : CakeCfg) {x y z : Nat}
    (hx : x < cfg.X) (hy : y < cfg.Y) :
    cfg.idToX (cfg.nodeId x y z) = x ∧ cfg.idToY (cfg.nodeId x y z) = y ∧
      cfg.idToZ (cfg.nodeId x y z) = z := by
  have hX : 0 < cfg.X := by omega
  have hXY : 0 < cfg.X * cfg.Y := Nat.mul_pos hX (by omega)
  have hoff : y * cfg.X + x < cfg.X * cfg.Y := plane_offset_lt hx hy
  have hmod : cfg.nodeId x y z % (cfg.X * cfg.Y) = y * cfg.X + x := by
    rw [CakeCfg.nodeId, Nat.add_assoc, Nat.add_comm (z * (cfg.X * cfg.Y)),
      Nat.add_mul_mod_self_right, Nat.mod_eq_of_lt hoff]
  refine ⟨?_, ?_, ?_⟩
  · rw [CakeCfg.idToX, hmod, Nat.add_comm (y * cfg.X) x,
      Nat.add_mul_mod_self_right, Nat.mod_eq_of_lt hx]
  · rw [CakeCfg.idToY, hmod, Nat.mul_comm y cfg.X, Nat.mul_add_div hX,
      Nat.div_eq_of_lt hx, Nat.add_zero]
  · rw [CakeCfg.idToZ, CakeCfg.nodeId, Nat.add_assoc, Nat.mul_comm z (cfg.X * cfg.Y),
      Nat.mul_add_div hXY, Nat.div_eq_of_lt hoff, Nat.add_zero]

/-- `_NodeId` is injective on in-range (x,y) coordinates. -/
theorem nodeId_inj (cfg : CakeCfg) {x y z x2 y2 z2 : Nat}
    (hx : x < cfg.X) (hy : y < cfg.Y) (hx2 : x2 < cfg.X) (hy2 : y2 < cfg.Y)
    (h : cfg.nodeId x y z = cfg.nodeId x2 y2 z2) : x = x2 ∧ y = y2 ∧ z = z2 := by
  obtain ⟨e1, e2, e3⟩ := idTo_nodeId cfg (z := z) hx hy
  obtain ⟨f1, f2, f3⟩ := idTo_nodeId cfg (z := z2) hx2 hy2
  refine ⟨?_, ?_, ?_⟩
  · rw [← e1, ← f1, h]
  · rw [← e2, ← f2, h]
  · rw [← e3, ← f3, h]

/-! ## UniTorus coordinate bijection (claim C4) -/

/-- The `node`/`multiplier` accumulator loop computes
`node + multiplier * value`. -/
theorem coordsToNodeAux_eq (sizes : List Nat) :
    ∀ (coords : List Nat) (node mult : Nat),
      coordsToNodeAux sizes coords node mult = node + mult * coordsVal sizes coords := by
  induction sizes with
  | nil =>
    intro coords node mult
    cases coords <;> simp [coordsToNodeAux, coordsVal]
  | cons s ss ih =>
    intro coords node mult
    cases coords with
    | nil => simp [coordsToNodeAux, coordsVal]
    | cons c cs =>
      simp only [coordsToNodeAux, coordsVal]
      rw [ih]
      ring

/-- Digit extraction inverts the accumulated value below the radix product. -/
theorem coordsVal_nodeToCoords (sizes : List Nat) :
    ∀ n, n < sizes.prod → coordsVal sizes (nodeToCoords sizes n) = n := by
  induction sizes with
  | nil =>
    intro n h
    simp only [List.prod_nil, Nat.lt_one_iff] at h
    simp [nodeToCoords, coordsVal, h]
  | cons s ss ih =>
    intro n h
    have hs : 0 < s := by
      rcases Nat.eq_zero_or_pos s with h0 | h0
      · subst h0; simp [List.prod_cons] at h
      · exact h0
    have h2 : n / s < ss.prod := by
      rw [Nat.div_lt_iff_lt_mul hs]
      calc n < (s :: ss).prod := h
        _ = ss.prod * s := by rw [List.prod_cons]; ring
    simp only [nodeToCoords, coordsVal]
    rw [ih _ h2, Nat.mod_add_div]

/-- The accumulated value of in-range digits decomposes back to the digits. -/
theorem nodeToCoords_coordsVal (sizes : List Nat) :
    ∀ coords, List.Forall₂ (· < ·) coords sizes →
      nodeToCoords sizes (coordsVal sizes coords) = coords := by
  induction sizes with
  | nil =>
    intro coords h
    cases h
    simp [nodeToCoords]
  | cons s ss ih =>
    intro coords h
    cases h with
    | cons hc hrest =>
      rename_i c cs
      have hs : 0 < s := by omega
      simp only [nodeToCoords, coordsVal]
      have hmod : (c + s * coordsVal ss cs) % s = c := by
        rw [Nat.add_mul_mod_self_left, Nat.mod_eq_of_lt hc]
      have hdiv : (c + s * coordsVal ss cs) / s = coordsVal ss cs := by
        rw [Nat.add_mul_div_left _ _ hs, Nat.div_eq_of_lt hc, Nat.zero_add]
      rw [hmod, hdiv, ih cs hrest]

/-- Coordinate `d` of `_NodeToCoords` is
`(id / ∏_{i<d} sizes[i]) mod sizes[d]`. -/
theorem nodeToCoords_get (sizes : List Nat) :
    ∀ n d, d < sizes.length →
      (nodeToCoords sizes n).get? d =
        some (n / (sizes.take d).prod % sizes.getD d 0) := by
  induction sizes with
  | nil => intro n d h; simp at h
  | cons s ss ih =>
    intro n d h
    cases d with
    | zero => simp [nodeToCoords]
    | succ d =>
      simp only [nodeToCoords, List.get?_cons_succ, List.getD_cons_succ,
        List.take_succ_cons, List.prod_cons]
      rw [ih (n / s) d (by simpa using h), Nat.div_div_eq_div_mul]

/-- C4: for every UniTorus dimension-size list, `_CoordsToNode` and
`_NodeToCoords` are mutually inverse between node ids in `[0, ∏ sizes)` and
in-range coordinate tuples, and `_NodeToCoords` realises the mixed-radix
least-significant-dimension-first scheme
`coord[d] = (id / ∏_{i<d} sizes[i]) mod sizes[d]`. -/
theorem unitorus_node_coord_bijection (sizes : List Nat) :
    (∀ n, n < sizes.prod → coordsToNode sizes (nodeToCoords sizes n) = n) ∧
    (∀ coords, List.Forall₂ (· < ·) coords sizes →
      nodeToCoords sizes (coordsToNode sizes coords) = coords) ∧
    (∀ n d, d < sizes.length →
      (nodeToCoords sizes n).get? d =
        some (n / (sizes.take d).prod % sizes.getD d 0)) := by
  refine ⟨fun n h => ?_, fun coords h => ?_, nodeToCoords_get sizes⟩
  · rw [coordsToNode, coordsToNodeAux_eq, coordsVal_nodeToCoords sizes n h,
      Nat.one_mul, Nat.zero_add]
  · rw [coordsToNode, coordsToNodeAux_eq, Nat.one_mul, Nat.zero_add]
    exact nodeToCoords_coordsVal sizes coords h

/-- Witness for C4 at the 4×4×4 scenario of the specification. -/
theorem unitorus_node_coord_bijection_witness :
    (22 < ([4, 4, 4] : List Nat).prod ∧
      coordsToNode [4, 4, 4] (nodeToCoords [4, 4, 4] 22) = 22) ∧
    (List.Forall₂ (· < ·) [2, 1, 1] [4, 4, 4] ∧
      nodeToCoords [4, 4, 4] (coordsToNode [4, 4, 4] [2, 1, 1]) = [2, 1, 1]) ∧
    (1 < ([4, 4, 4] : List Nat).length ∧
      (nodeToCoords [4, 4, 4] 22).get? 1 =
        some (22 / (([4, 4, 4] : List Nat).take 1).prod % ([4, 4, 4] : List Nat).getD 1 0)) :=
  ⟨⟨by decide, (unitorus_node_coord_bijection [4, 4, 4]).1 22 (by decide)⟩,
   ⟨by decide, (unitorus_node_coord_bijection [4, 4, 4]).2.1 [2, 1, 1] (by decide)⟩,
   ⟨by decide, (unitorus_node_coord_bijection [4, 4, 4]).2.2 22 1 (by decide)⟩⟩

/-! ## Cake channel-id layout (claim C5) -/

/-- Vertical slot bound: `ei*Z + z < E*Z` for `ei < E`, `z < Z`. -/
theorem slot_lt {E Z ei z : Nat} (hei : ei < E) (hz : z < Z) :
    ei * Z + z < E * Z := by
  calc ei * Z + z < ei * Z + Z := by omega
    _ = (ei + 1) * Z := by ring
    _ ≤ E * Z := Nat.mul_le_mul_right Z (Nat.succ_le_of_lt hei)

/-- C5: the Cake channel-id layout.  In-plane channel ids are
`node*2 + dim` and fill `[0, 2·X·Y·Z)`; vertical ids are
`2·X·Y·Z + (e·Z + z)·2 + {0 up, 1 down}` and lie in `[2·X·Y·Z, channels)`;
the total channel count is `2·X·Y·Z + 2·|E|·Z`. -/
theorem cake_channel_layout (cfg : CakeCfg) :
    (∀ node dim, node < cfg.size → dim < 2 →
      inplaneChannel node dim = node * 2 + dim ∧
      inplaneChannel node dim < 2 * cfg.size) ∧
    (∀ ei z, ei < cfg.elevators.length → z < cfg.Z →
      cfg.upChannel ei z = 2 * cfg.size + (ei * cfg.Z + z) * 2 ∧
      cfg.downChannel ei z = 2 * cfg.size + (ei * cfg.Z + z) * 2 + 1 ∧
      2 * cfg.size ≤ cfg.upChannel ei z ∧
      cfg.downChannel ei z < cfg.channels) ∧
    cfg.channels = 2 * cfg.size + 2 * cfg.elevators.length * cfg.Z := by
  refine ⟨fun node dim h1 h2 => ⟨rfl, ?_⟩, fun ei z h1 h2 => ?_, ?_⟩
  · rw [inplaneChannel]; omega
  · have hs := slot_lt h1 h2
    refine ⟨?_, ?_, ?_, ?_⟩
    · rw [CakeCfg.upChannel, CakeCfg.inplaneChannels]; ring
    · rw [CakeCfg.downChannel, CakeCfg.inplaneChannels]; ring
    · rw [CakeCfg.upChannel, CakeCfg.inplaneChannels]; omega
    · rw [CakeCfg.downChannel, CakeCfg.channels, CakeCfg.inplaneChannels,
        CakeCfg.verticalChannels]
      omega
  · rw [CakeCfg.channels, CakeCfg.inplaneChannels, CakeCfg.verticalChannels]
    ring

/-- Witness for C5 at the 3×3×2 single-elevator scenario of the
specification (18 nodes, 40 channels). -/
theorem cake_channel_layout_witness :
    (5 < (⟨3, 3, 2, [(1, 1)]⟩ : CakeCfg).size ∧ 1 < 2 ∧
      inplaneChannel 5 1 = 5 * 2 + 1 ∧
      inplaneChannel 5 1 < 2 * (⟨3, 3, 2, [(1, 1)]⟩ : CakeCfg).size) ∧
    (0 < (⟨3, 3, 2, [(1, 1)]⟩ : CakeCfg).elevators.length ∧
      1 < (⟨3, 3, 2, [(1, 1)]⟩ : CakeCfg).Z ∧
      (⟨3, 3, 2, [(1, 1)]⟩ : CakeCfg).upChannel 0 1 =
        2 * (⟨3, 3, 2, [(1, 1)]⟩ : CakeCfg).size + (0 * 2 + 1) * 2) ∧
    (⟨3, 3, 2, [(1, 1)]⟩ : CakeCfg).channels = 40 :=
  ⟨⟨by decide, by decide,
      ((cake_channel_layout ⟨3, 3, 2, [(1, 1)]⟩).1 5 1 (by decide) (by decide)).1,
      ((cake_channel_layout ⟨3, 3, 2, [(1, 1)]⟩).1 5 1 (by decide) (by decide)).2⟩,
   ⟨by decide, by decide,
      ((cake_channel_layout ⟨3, 3, 2, [(1, 1)]⟩).2.1 0 1 (by decide) (by decide)).1⟩,
   by decide⟩

/-! ## UniTorus capacity (claim C6) -/

/-- A fold that only accumulates additions is the sum of the mapped list. -/
theorem foldl_add_map {α : Type _} (f : α → ℚ) :
    ∀ (l : List α) (init : ℚ),
      l.foldl (fun acc i => acc + f i) init = init + (l.map f).sum := by
  intro l
  induction l with
  | nil => intro init; simp
  | cons c t ih =>
    intro init
    rw [List.foldl_cons, ih, List.map_cons, List.sum_cons]
    ring

/-- C6: for a constructed UniTorus (whose sizes are all positive, hence
`∏ sizes ≠ 0`), `Capacity()` is the sum over all dimensions of
`bandwidth[d]` — the `_size` factors cancel exactly. -/
theorem unitorus_capacity_law (dimSizes dimBandwidth : List Int)
    (h : dimSizes.prod ≠ 0) :
    uniTorusCapacity dimSizes dimBandwidth =
      ((List.range dimSizes.length).map fun d =>
        ((dimBandwidth.getD d 0 : Int) : ℚ)).sum := by
  rw [uniTorusCapacity, foldl_add_map, Rat.zero_add]
  congr 1
  apply List.map_congr_left
  intro d _
  have hq : ((dimSizes.prod : Int) : ℚ) ≠ 0 := Int.cast_ne_zero.mpr h
  rw [Int.cast_mul, mul_div_cancel_left₀ _ hq]

/-- Witness for C6 at the 3×3 scenario of the specification with
`dim_bandwidth = {1,2}`: the capacity is 1 + 2 = 3. -/
theorem unitorus_capacity_law_witness :
    ([3, 3] : List Int).prod ≠ 0 ∧
    uniTorusCapacity [3, 3] [1, 2] =
      ((List.range ([3, 3] : List Int).length).map fun d =>
        ((([1, 2] : List Int).getD d 0 : Int) : ℚ)).sum :=
  ⟨by decide, unitorus_capacity_law [3, 3] [1, 2] (by decide)⟩

/-! ## Routing-function registry (claim C9) -/

/-- C9 (amended): after registration the registry contains
`dim_order_unitorus_unitorus` for UniTorus, while
`Cake::RegisterRoutingFunctions` registers nothing at all (its body is an
empty TODO), so it leaves any registry unchanged. -/
theorem routing_registry_contents (reg : List String) :
    dimOrderUniTorusName ∈ uniTorusRegisterRoutingFunctions reg ∧
    cakeRegisterRoutingFunctions reg = reg := by
  refine ⟨?_, rfl⟩
  rw [uniTorusRegisterRoutingFunctions, registryInsert]
  by_cases h : dimOrderUniTorusName ∈ reg
  · rw [if_pos h]; exact h
  · rw [if_neg h]; exact List.mem_append_right reg (List.mem_singleton.2 rfl)

/-- C9 counterexample: starting from an empty registry and running both
registration hooks, `dor_cake` is not present — Cake registers no routing
function. -/
theorem dor_cake_not_registered :
    dorCakeName ∉ cakeRegisterRoutingFunctions (uniTorusRegisterRoutingFunctions []) := by
  decide

/-! ## UniTorus direction-config defaults (claim C10) -/

/-- C10: for `dim_bandwidth`, `dim_latency`, `dim_penalty`, the literal
string `"0"` is treated exactly like a missing key: the parse succeeds and
yields the per-dimension defaults (bandwidth 1, latency 1, penalty 0),
identically to the empty string. -/
theorem zero_string_treated_as_missing (numDims : Nat) :
    parseDirectionConfig numDims ['0'] ['0'] ['0'] =
      Except.ok (List.replicate numDims 1, List.replicate numDims 1,
        List.replicate numDims 0) ∧
    parseDirectionConfig numDims ['0'] ['0'] ['0'] =
      parseDirectionConfig numDims [] [] [] :=
  ⟨rfl, rfl⟩

/-! ## Cake elevator-mapping validation (claim C2) -/

/-- Pairing a flat stream halves its length. -/
theorem pairUp_length : ∀ nums : List Int, (pairUp nums).length = nums.length / 2
  | [] => by simp [pairUp]
  | [_] => by simp [pairUp]
  | _ :: _ :: rest => by
    rw [pairUp, List.length_cons, pairUp_length rest]
    simp only [List.length_cons]
    omega

/-- `getD` at an in-range index is a member of the list. -/
theorem getD_mem_of_lt {α : Type _} (d : α) :
    ∀ (l : List α) (n : Nat), n < l.length → l.getD n d ∈ l
  | a :: t, 0, _ => by simp
  | a :: t, n + 1, h => by
    rw [List.getD_cons_succ]
    exact List.mem_cons_of_mem a (getD_mem_of_lt d t n (by simpa using h))

/-- The mapping-validation loop of `Cake::_ParseElevators` only succeeds when
every pair it consumed (and every pair already accumulated) is inside
`[0,X) × [0,Y)`. -/
theorem parseMappingPairsAux_ok_range (X Y : Nat) :
    ∀ (ps acc res : List (Int × Int)),
      parseMappingPairsAux X Y acc ps = Except.ok res →
      (∀ p ∈ acc, 0 ≤ p.1 ∧ p.1 < (X : Int) ∧ 0 ≤ p.2 ∧ p.2 < (Y : Int)) →
      ∀ p ∈ res, 0 ≤ p.1 ∧ p.1 < (X : Int) ∧ 0 ≤ p.2 ∧ p.2 < (Y : Int) := by
  intro ps
  induction ps with
  | nil =>
    intro acc res h hacc
    simp only [parseMappingPairsAux] at h
    cases h
    exact hacc
  | cons p rest ih =>
    intro acc res h hacc
    by_cases hc : p.1 < 0 ∨ (X : Int) ≤ p.1 ∨ p.2 < 0 ∨ (Y : Int) ≤ p.2
    · rw [parseMappingPairsAux, if_pos hc] at h
      cases h
    · rw [parseMappingPairsAux, if_neg hc] at h
      push_neg at hc
      refine ih (acc ++ [p]) res h ?_
      intro q hq
      rcases List.mem_append.1 hq with h1 | h1
      · exact hacc q h1
      · rw [List.mem_singleton.1 h1]
        exact ⟨hc.1, hc.2.1, hc.2.2.1, hc.2.2.2⟩

/-- The mapping-validation loop accumulates exactly the pairs it was given. -/
theorem parseMappingPairsAux_ok_length (X Y : Nat) :
    ∀ (ps acc res : List (Int × Int)),
      parseMappingPairsAux X Y acc ps = Except.ok res →
      res.length = acc.length + ps.length := by
  intro ps
  induction ps with
  | nil =>
    intro acc res h
    simp only [parseMappingPairsAux] at h
    cases h
    simp
  | cons p rest ih =>
    intro acc res h
    by_cases hc : p.1 < 0 ∨ (X : Int) ≤ p.1 ∨ p.2 < 0 ∨ (Y : Int) ≤ p.2
    · rw [parseMappingPairsAux, if_pos hc] at h
      cases h
    · rw [parseMappingPairsAux, if_neg hc] at h
      have := ih (acc ++ [p]) res h
      rw [List.length_append] at this
      simp only [List.length_cons, List.length_nil] at this ⊢
      omega

/-- Entries of the default identity mapping table are in range. -/
theorem identityRows_entries {X Y : Nat} :
    ∀ row ∈ identityRows X Y, ∀ p ∈ row,
      0 ≤ p.1 ∧ p.1 < (X : Int) ∧ 0 ≤ p.2 ∧ p.2 < (Y : Int) := by
  intro row hrow p hp
  rw [identityRows, List.mem_map] at hrow
  obtain ⟨ry, hry, hrw⟩ := hrow
  subst hrw
  rw [List.mem_map] at hp
  obtain ⟨rx, hrx, hpw⟩ := hp
  subst hpw
  rw [List.mem_range] at hry hrx
  refine ⟨show (0 : Int) ≤ (rx : Int) from ?_,
    show ((rx : Int) : Int) < (X : Int) from ?_,
    show (0 : Int) ≤ (ry : Int) from ?_,
    show ((ry : Int) : Int) < (Y : Int) from ?_⟩ <;> omega

/-- Entries of a `Y × X` table built from `X*Y` in-range pairs are in range. -/
theorem mapRows_entries {X Y : Nat} {pairs : List (Int × Int)}
    (hplen : pairs.length = X * Y)
    (hrange : ∀ p ∈ pairs, 0 ≤ p.1 ∧ p.1 < (X : Int) ∧ 0 ≤ p.2 ∧ p.2 < (Y : Int)) :
    ∀ row ∈ mapRows X Y pairs, ∀ p ∈ row,
      0 ≤ p.1 ∧ p.1 < (X : Int) ∧ 0 ≤ p.2 ∧ p.2 < (Y : Int) := by
  intro row hrow p hp
  rw [mapRows, List.mem_map] at hrow
  obtain ⟨ry, hry, hrw⟩ := hrow
  subst hrw
  rw [List.mem_map] at hp
  obtain ⟨rx, hrx, hpw⟩ := hp
  subst hpw
  rw [List.mem_range] at hry hrx
  apply hrange
  apply getD_mem_of_lt
  rw [hplen, Nat.mul_comm X Y]
  calc ry * X + rx < ry * X + X := Nat.add_lt_add_left hrx _
    _ = (ry + 1) * X := (Nat.succ_mul ry X).symm
    _ ≤ Y * X := Nat.mul_le_mul_right X (Nat.succ_le_of_lt hry)

/-- C2 (amended): whenever `Cake::_ParseElevators` succeeds, every entry of
the produced elevator-mapping table lies in `[0,X) × [0,Y)`.  Membership in
the declared elevator set is not checked — an in-range entry that names a
non-elevator coordinate is accepted. -/
theorem cake_mapping_entries_in_range (X Y : Nat) (epairs : List (Int × Int))
    (mapNums : Option (List Int)) (elevs : List (Int × Int))
    (emap : List (List (Int × Int)))
    (h : cakeParseElevators X Y epairs mapNums = Except.ok (elevs, emap)) :
    ∀ row ∈ emap, ∀ p ∈ row,
      0 ≤ p.1 ∧ p.1 < (X : Int) ∧ 0 ≤ p.2 ∧ p.2 < (Y : Int) := by
  rw [cakeParseElevators] at h
  cases hpe : parseElevCoordsAux X Y [] epairs with
  | error e => rw [hpe] at h; cases h
  | ok elevs2 =>
    rw [hpe] at h
    cases mapNums with
    | none =>
      simp only [Except.ok.injEq, Prod.mk.injEq] at h
      rw [← h.2]
      exact identityRows_entries
    | some nums =>
      by_cases hlen : nums.length ≠ X * Y * 2
      · simp only [if_pos hlen] at h
        exact Except.noConfusion h
      · simp only [if_neg hlen] at h
        push_neg at hlen
        cases hpm : parseMappingPairsAux X Y [] (pairUp nums) with
        | error e => rw [hpm] at h; cases h
        | ok pairs =>
          rw [hpm] at h
          simp only [Except.ok.injEq, Prod.mk.injEq] at h
          rw [← h.2]
          have hrange := parseMappingPairsAux_ok_range X Y (pairUp nums) [] pairs hpm
            (by intro q hq; cases hq)
          have hplen : pairs.length = X * Y := by
            have h0 := parseMappingPairsAux_ok_length X Y (pairUp nums) [] pairs hpm
            rw [h0, pairUp_length, hlen]
            simp only [List.length_nil]
            omega
          exact mapRows_entries hplen hrange

/-- C2 counterexample: on a 1×1 Cake with no declared elevators and the
default mapping, the single mapping entry (0,0) is not in the (empty)
elevator set, yet `_ParseElevators` succeeds — construction does not fail. -/
theorem cake_mapping_nonelevator_accepted :
    cakeParseElevators 1 1 [] none =
      Except.ok ([], [[((0 : Int), (0 : Int))]]) ∧
    ((0 : Int), (0 : Int)) ∉ ([] : List (Int × Int)) :=
  ⟨rfl, by decide⟩

/-- Witness for the amended C2: a 2×1 Cake with elevator (0,0) and an
explicit mapping whose first entry (1,0) is in range but is not an elevator
is accepted, and all its entries are in range. -/
theorem cake_mapping_entries_in_range_witness :
    cakeParseElevators 2 1 [(0, 0)] (some [1, 0, 0, 0]) =
      Except.ok ([(0, 0)], [[((1 : Int), (0 : Int)), (0, 0)]]) ∧
    (∀ row ∈ [[((1 : Int), (0 : Int)), (0, 0)]], ∀ p ∈ row,
      0 ≤ p.1 ∧ p.1 < ((2 : Nat) : Int) ∧ 0 ≤ p.2 ∧ p.2 < ((1 : Nat) : Int)) :=
  ⟨rfl,
   cake_mapping_entries_in_range 2 1 [(0, 0)] (some [1, 0, 0, 0]) [(0, 0)]
     [[(1, 0), (0, 0)]] rfl⟩

/-! ## Cake `dim_sizes` arity (claim C7) -/

/-- C7 (amended): Cake construction fails when `dim_sizes` is empty or has
fewer than two values.  With two or more values, the result is determined by
the first three tokens alone (X, Y, and Z defaulting to 1 when only two are
present): extra values beyond the third are ignored, not rejected. -/
theorem cake_dim_sizes_length_rule (s : List Char) :
    ((s = [] ∨ (trimmedTokens s).length < 2) →
      ∀ v, cakeComputeSize s ≠ Except.ok v) ∧
    (s ≠ [] → 2 ≤ (trimmedTokens s).length →
      0 < atoi ((trimmedTokens s).getD 0 []) →
      0 < atoi ((trimmedTokens s).getD 1 []) →
      (3 ≤ (trimmedTokens s).length → 0 < atoi ((trimmedTokens s).getD 2 [])) →
      cakeComputeSize s =
        Except.ok (atoi ((trimmedTokens s).getD 0 []),
          atoi ((trimmedTokens s).getD 1 []),
          if 3 ≤ (trimmedTokens s).length then atoi ((trimmedTokens s).getD 2 [])
          else 1)) := by
  constructor
  · intro hcond v hok
    rw [cakeComputeSize] at hok
    rcases hcond with hs | hlen
    · rw [if_pos hs] at hok
      exact Except.noConfusion hok
    · by_cases hs : s = []
      · rw [if_pos hs] at hok
        exact Except.noConfusion hok
      · rw [if_neg hs] at hok
        simp only [if_pos hlen] at hok
        exact Except.noConfusion hok
  · intro hs hlen hx hy hl
    rw [cakeComputeSize, if_neg hs]
    simp only [Nat.not_lt.mpr hlen, if_false]
    have hcond : ¬ (atoi ((trimmedTokens s).getD 0 []) ≤ 0 ∨
        atoi ((trimmedTokens s).getD 1 []) ≤ 0 ∨
        (if 3 ≤ (trimmedTokens s).length then atoi ((trimmedTokens s).getD 2 [])
          else 1) ≤ 0) := by
      push_neg
      refine ⟨hx, hy, ?_⟩
      by_cases h3 : 3 ≤ (trimmedTokens s).length
      · rw [if_pos h3]; exact hl h3
      · rw [if_neg h3]; omega
    simp only [if_neg hcond]

/-- C7 counterexample: a `dim_sizes` list with four values is accepted
(the fourth value is silently ignored), contradicting the claim that more
than three values fail. -/
theorem cake_dim_sizes_four_values_accepted :
    cakeComputeSize ['{', '2', ',', '2', ',', '2', ',', '2', '}'] =
      Except.ok (2, 2, 2) := rfl

/-- Witness for the amended C7 at the four-value list `{2,2,2,2}`. -/
theorem cake_dim_sizes_length_rule_witness :
    (['{', '2', ',', '2', ',', '2', ',', '2', '}'] : List Char) ≠ [] ∧
    2 ≤ (trimmedTokens ['{', '2', ',', '2', ',', '2', ',', '2', '}']).length ∧
    cakeComputeSize ['{', '2', ',', '2', ',', '2', ',', '2', '}'] =
      Except.ok (atoi ((trimmedTokens ['{', '2', ',', '2', ',', '2', ',', '2', '}']).getD 0 []),
        atoi ((trimmedTokens ['{', '2', ',', '2', ',', '2', ',', '2', '}']).getD 1 []),
        if 3 ≤ (trimmedTokens ['{', '2', ',', '2', ',', '2', ',', '2', '}']).length then
          atoi ((trimmedTokens ['{', '2', ',', '2', ',', '2', ',', '2', '}']).getD 2 [])
        else 1) :=
  ⟨by decide, by decide,
   (cake_dim_sizes_length_rule ['{', '2', ',', '2', ',', '2', ',', '2', '}']).2
     (by decide) (by decide) (by decide) (by decide) (fun _ => by decide)⟩

/-! ## Builder global hints (claim C8) -/

/-- C8 (amended): `UniTorus::_ComputeSize` sets `gN` to the dimension count,
`gK` to the leading dimension size, and `gDimSizes` to a copy of the size
list; `Cake::_ComputeSize` sets `gN = 2` and `gK = X` regardless of the
layer count and never touches `gDimSizes`. -/
theorem builder_global_hints (s : List Char) (g : Globals) :
    (∀ dims g2, uniTorusComputeSize s g = Except.ok (dims, g2) →
      g2.gN = (dims.length : Int) ∧ g2.gK = dims.getD 0 0 ∧ g2.gDimSizes = dims) ∧
    (∀ xyl g2, cakeComputeSizeG s g = Except.ok (xyl, g2) →
      g2.gN = 2 ∧ g2.gK = xyl.1 ∧ g2.gDimSizes = g.gDimSizes) := by
  constructor
  · intro dims g2 h
    rw [uniTorusComputeSize] at h
    by_cases hs : s = [] ∨ s = ['0']
    · rw [if_pos hs] at h
      exact Except.noConfusion h
    · rw [if_neg hs] at h
      cases hp : parsePositiveList (uniTokens s) with
      | error e => rw [hp] at h; exact Except.noConfusion h
      | ok vs =>
        rw [hp] at h
        simp only [Except.ok.injEq, Prod.mk.injEq] at h
        obtain ⟨h1, h2⟩ := h
        subst h1
        rw [← h2]
        exact ⟨rfl, rfl, rfl⟩
  · intro xyl g2 h
    rw [cakeComputeSizeG] at h
    cases hc : cakeComputeSize s with
    | error e => rw [hc] at h; exact Except.noConfusion h
    | ok xyl2 =>
      rw [hc] at h
      simp only [Except.ok.injEq, Prod.mk.injEq] at h
      obtain ⟨h1, h2⟩ := h
      subst h1
      rw [← h2]
      exact ⟨rfl, rfl, rfl⟩

/-- C8 counterexample: for a Cake with `dim_sizes = {2,2,3}` (three
dimensions, Z = 3 layers), the builder sets `gN = 2`, not the topology's
dimension count 3, and leaves `gDimSizes` at its previous value instead of
copying `{2,2,3}`. -/
theorem cake_globals_ignore_layers :
    cakeComputeSizeG ['{', '2', ',', '2', ',', '3', '}'] ⟨0, 0, []⟩ =
      Except.ok ((2, 2, 3), ⟨2, 2, []⟩) ∧
    (2 : Int) ≠ 3 ∧ ([] : List Int) ≠ [2, 2, 3] :=
  ⟨rfl, by decide, by decide⟩

/-- Witness for the amended C8: UniTorus on `{4,6,8}` and Cake on `{4,6}`. -/
theorem builder_global_hints_witness :
    (uniTorusComputeSize ['{', '4', ',', '6', ',', '8', '}'] ⟨0, 0, []⟩ =
      Except.ok ([4, 6, 8], ⟨3, 4, [4, 6, 8]⟩) ∧
      (⟨3, 4, [4, 6, 8]⟩ : Globals).gN = (([4, 6, 8] : List Int).length : Int) ∧
      (⟨3, 4, [4, 6, 8]⟩ : Globals).gK = ([4, 6, 8] : List Int).getD 0 0 ∧
      (⟨3, 4, [4, 6, 8]⟩ : Globals).gDimSizes = [4, 6, 8]) ∧
    (cakeComputeSizeG ['{', '4', ',', '6', '}'] ⟨0, 0, []⟩ =
      Except.ok ((4, 6, 1), ⟨2, 4, []⟩) ∧
      (⟨2, 4, []⟩ : Globals).gN = 2 ∧
      (⟨2, 4, []⟩ : Globals).gK = ((4 : Int), (6 : Int), (1 : Int)).1 ∧
      (⟨2, 4, []⟩ : Globals).gDimSizes = (⟨0, 0, []⟩ : Globals).gDimSizes) :=
  ⟨⟨rfl,
    (builder_global_hints ['{', '4', ',', '6', ',', '8', '}'] ⟨0, 0, []⟩).1
      [4, 6, 8] ⟨3, 4, [4, 6, 8]⟩ rfl⟩,
   ⟨rfl,
    (builder_global_hints ['{', '4', ',', '6', '}'] ⟨0, 0, []⟩).2
      (4, 6, 1) ⟨2, 4, []⟩ rfl⟩⟩

/-! ## The `_BuildNet` wiring passes, observed per router and per channel -/

/-- `getD` at an in-range index agrees with `get`. -/
theorem getD_eq_get {α : Type _} (d : α) :
    ∀ (l : List α) (n : Nat) (h : n < l.length), l.getD n d = l.get ⟨n, h⟩
  | _ :: _, 0, _ => by simp
  | a :: t, n + 1, h => by
    rw [List.getD_cons_succ]
    exact getD_eq_get d t n (by simpa using h)

/-- The in-plane item keys, phrased through `_NodeId`, enumerate all node ids. -/
theorem tripleItems_map_nodeId (cfg : CakeCfg) :
    ((tripleItems cfg.X cfg.Y cfg.Z).map fun i => cfg.nodeId i.2.2 i.2.1 i.1) =
      List.range cfg.size := by
  have heq : (fun i : Nat × Nat × Nat => cfg.nodeId i.2.2 i.2.1 i.1) =
      fun i : Nat × Nat × Nat => i.1 * (cfg.X * cfg.Y) + i.2.1 * cfg.X + i.2.2 := by
    funext i
    rfl
  rw [heq, tripleItems_map_key]
  rfl

/-- The vertical-pass items, keyed by the source router id of the elevator
they wire, have pairwise distinct keys: distinct elevators sit at distinct
(x,y) columns and distinct layers give distinct routers. -/
theorem vertItems_map_nodeId_nodup (cfg : CakeCfg)
    (hnd : cfg.elevators.Nodup)
    (hrange : ∀ p ∈ cfg.elevators, p.1 < cfg.X ∧ p.2 < cfg.Y) :
    (((pairItems cfg.elevators.length cfg.Z).map fun i =>
      cfg.nodeId (cfg.elevators.getD i.1 (0, 0)).1
        (cfg.elevators.getD i.1 (0, 0)).2 i.2).Nodup) := by
  have hpn : (pairItems cfg.elevators.length cfg.Z).Nodup := by
    have h := pairItems_map_key cfg.elevators.length cfg.Z
    exact List.Nodup.of_map _ (h ▸ List.nodup_range _)
  refine hpn.map_on ?_
  intro a ha b hb hab
  obtain ⟨ha1, _⟩ := mem_pairItems_bounds ha
  obtain ⟨hb1, _⟩ := mem_pairItems_bounds hb
  have hga : cfg.elevators.getD a.1 (0, 0) ∈ cfg.elevators :=
    getD_mem_of_lt (0, 0) cfg.elevators a.1 ha1
  have hgb : cfg.elevators.getD b.1 (0, 0) ∈ cfg.elevators :=
    getD_mem_of_lt (0, 0) cfg.elevators b.1 hb1
  obtain ⟨hax, hay⟩ := hrange _ hga
  obtain ⟨hbx, hby⟩ := hrange _ hgb
  obtain ⟨e1, e2, e3⟩ := nodeId_inj cfg hax hay hbx hby hab
  have hpair : cfg.elevators.getD a.1 (0, 0) = cfg.elevators.getD b.1 (0, 0) :=
    Prod.ext e1 e2
  have hidx : a.1 = b.1 := by
    rw [getD_eq_get (0, 0) cfg.elevators a.1 ha1,
      getD_eq_get (0, 0) cfg.elevators b.1 hb1] at hpair
    exact congrArg Fin.val (List.nodup_iff_injective_get.1 hnd hpair)
  exact Prod.ext hidx e3

/-- A vertical-pass item never touches the router of a non-elevator column. -/
theorem vert_key_ne_of_not_elev (cfg : CakeCfg) {x y z : Nat}
    (hx : x < cfg.X) (hy : y < cfg.Y)
    (hrange : ∀ p ∈ cfg.elevators, p.1 < cfg.X ∧ p.2 < cfg.Y)
    (hne : (x, y) ∉ cfg.elevators) {i : Nat × Nat}
    (hi : i ∈ pairItems cfg.elevators.length cfg.Z) :
    cfg.nodeId (cfg.elevators.getD i.1 (0, 0)).1
      (cfg.elevators.getD i.1 (0, 0)).2 i.2 ≠ cfg.nodeId x y z := by
  intro h
  obtain ⟨h1, _⟩ := mem_pairItems_bounds hi
  have hg : cfg.elevators.getD i.1 (0, 0) ∈ cfg.elevators :=
    getD_mem_of_lt (0, 0) cfg.elevators i.1 h1
  obtain ⟨hgx, hgy⟩ := hrange _ hg
  obtain ⟨e1, e2, _⟩ := nodeId_inj cfg hgx hgy hx hy h
  apply hne
  rw [← e1, ← e2]
  exact Prod.mk.eta ▸ hg

/-- Effect of the X+ pass on one router: its `xp` slot receives the output
count before the append and the X+ in-plane channel is appended. -/
theorem xPass_routers (cfg : CakeCfg) (st : BuildSt) {x y z : Nat}
    (hx : x < cfg.X) (hy : y < cfg.Y) (hz : z < cfg.Z) :
    ((tripleItems cfg.X cfg.Y cfg.Z).foldl (xStep cfg) st).routers (cfg.nodeId x y z) =
      { st.routers (cfg.nodeId x y z) with
        xp := ((st.routers (cfg.nodeId x y z)).outputs.length : Int),
        outputs := (st.routers (cfg.nodeId x y z)).outputs ++
          [Chan.net (inplaneChannel (cfg.nodeId x y z) 0)] } := by
  refine foldl_obs_key (xStep cfg) (fun s => s.routers (cfg.nodeId x y z))
    (fun i => cfg.nodeId i.2.2 i.2.1 i.1) (cfg.nodeId x y z)
    (fun _ r0 =>
      { r0 with
        xp := (r0.outputs.length : Int)
        outputs := r0.outputs ++ [Chan.net (inplaneChannel (cfg.nodeId x y z) 0)] })
    ?_ ?_ (tripleItems cfg.X cfg.Y cfg.Z) st
    (by rw [tripleItems_map_nodeId]; exact List.nodup_range _)
    (z, y, x) (mem_tripleItems hx hy hz) rfl
  · intro st2 b hb
    simp only [xStep, updRouter]
    exact if_neg fun hr => hb hr.symm
  · intro st2 b hb
    simp only [xStep, updRouter]
    rw [if_pos hb.symm]
    dsimp only at hb
    rw [hb]

/-- Effect of the Y+ pass on one router: `yp` slot and Y+ channel. -/
theorem yPass_routers (cfg : CakeCfg) (st : BuildSt) {x y z : Nat}
    (hx : x < cfg.X) (hy : y < cfg.Y) (hz : z < cfg.Z) :
    ((tripleItems cfg.X cfg.Y cfg.Z).foldl (yStep cfg) st).routers (cfg.nodeId x y z) =
      { st.routers (cfg.nodeId x y z) with
        yp := ((st.routers (cfg.nodeId x y z)).outputs.length : Int),
        outputs := (st.routers (cfg.nodeId x y z)).outputs ++
          [Chan.net (inplaneChannel (cfg.nodeId x y z) 1)] } := by
  refine foldl_obs_key (yStep cfg) (fun s => s.routers (cfg.nodeId x y z))
    (fun i => cfg.nodeId i.2.2 i.2.1 i.1) (cfg.nodeId x y z)
    (fun _ r0 =>
      { r0 with
        yp := (r0.outputs.length : Int)
        outputs := r0.outputs ++ [Chan.net (inplaneChannel (cfg.nodeId x y z) 1)] })
    ?_ ?_ (tripleItems cfg.X cfg.Y cfg.Z) st
    (by rw [tripleItems_map_nodeId]; exact List.nodup_range _)
    (z, y, x) (mem_tripleItems hx hy hz) rfl
  · intro st2 b hb
    simp only [yStep, updRouter]
    exact if_neg fun hr => hb hr.symm
  · intro st2 b hb
    simp only [yStep, updRouter]
    rw [if_pos hb.symm]
    dsimp only at hb
    rw [hb]

/-- Effect of the vertical pass on the router of elevator `ei` at layer `z`:
`zup` then `zdn` are recorded while the up and down channels are appended. -/
theorem vPass_routers_elev (cfg : CakeCfg) (st : BuildSt) {x y z ei : Nat}
    (hz : z < cfg.Z) (hnd : cfg.elevators.Nodup)
    (hrange : ∀ p ∈ cfg.elevators, p.1 < cfg.X ∧ p.2 < cfg.Y)
    (hei : ei < cfg.elevators.length)
    (hget : cfg.elevators.get ⟨ei, hei⟩ = (x, y)) :
    ((pairItems cfg.elevators.length cfg.Z).foldl (vStep cfg) st).routers
        (cfg.nodeId x y z) =
      { st.routers (cfg.nodeId x y z) with
        zup := ((st.routers (cfg.nodeId x y z)).outputs.length : Int),
        zdn := ((st.routers (cfg.nodeId x y z)).outputs.length + 1 : Int),
        outputs := (st.routers (cfg.nodeId x y z)).outputs ++
          [Chan.net (cfg.upChannel ei z), Chan.net (cfg.downChannel ei z)] } := by
  have hkey : cfg.nodeId (cfg.elevators.getD (ei, z).1 (0, 0)).1
      (cfg.elevators.getD (ei, z).1 (0, 0)).2 (ei, z).2 = cfg.nodeId x y z := by
    rw [getD_eq_get (0, 0) cfg.elevators ei hei, hget]
  have h := foldl_obs_key (vStep cfg) (fun s => s.routers (cfg.nodeId x y z))
    (fun i => cfg.nodeId (cfg.elevators.getD i.1 (0, 0)).1
      (cfg.elevators.getD i.1 (0, 0)).2 i.2) (cfg.nodeId x y z)
    (fun b r0 => { r0 with
      zup := (r0.outputs.length : Int),
      zdn := ((r0.outputs ++ [Chan.net (cfg.upChannel b.1 b.2)]).length : Int),
      outputs := r0.outputs ++ [Chan.net (cfg.upChannel b.1 b.2)] ++
        [Chan.net (cfg.downChannel b.1 b.2)] })
    (fun st2 b hb => by
      simp only [vStep, updRouter]
      exact if_neg fun hr => hb hr.symm)
    (fun st2 b hb => by
      simp only [vStep, updRouter]
      rw [if_pos hb.symm])
    (pairItems cfg.elevators.length cfg.Z) st
    (vertItems_map_nodeId_nodup cfg hnd hrange)
    (ei, z) (mem_pairItems hei hz) hkey
  dsimp only at h
  rw [h]
  simp only [List.length_append, List.length_cons, List.length_nil, List.append_assoc,
    List.cons_append, List.nil_append, Nat.cast_add, Nat.cast_one, Nat.zero_add]

/-- The vertical pass does not touch routers of non-elevator columns. -/
theorem vPass_routers_not_elev (cfg : CakeCfg) (st : BuildSt) {x y z : Nat}
    (hx : x < cfg.X) (hy : y < cfg.Y)
    (hrange : ∀ p ∈ cfg.elevators, p.1 < cfg.X ∧ p.2 < cfg.Y)
    (hne : (x, y) ∉ cfg.elevators) :
    ((pairItems cfg.elevators.length cfg.Z).foldl (vStep cfg) st).routers
        (cfg.nodeId x y z) = st.routers (cfg.nodeId x y z) := by
  refine foldl_obs_frame (vStep cfg) (fun s => s.routers (cfg.nodeId x y z))
    (fun i => cfg.nodeId (cfg.elevators.getD i.1 (0, 0)).1
      (cfg.elevators.getD i.1 (0, 0)).2 i.2 ≠ cfg.nodeId x y z)
    ?_ (pairItems cfg.elevators.length cfg.Z) st
    (fun b hb => vert_key_ne_of_not_elev cfg hx hy hrange hne hb)
  intro st2 b hb
  simp only [vStep, updRouter]
  exact if_neg fun hr => hb hr.symm

/-- Effect of the injection/ejection pass on one router: the `eject` slot
records the output count and the node's ejection channel is appended. -/
theorem ejPass_routers (st : BuildSt) {r n : Nat} (hr : r < n) :
    ((List.range n).foldl ejStep st).routers r =
      { st.routers r with
        eject := ((st.routers r).outputs.length : Int),
        outputs := (st.routers r).outputs ++ [Chan.eject r] } := by
  refine foldl_obs_key ejStep (fun s => s.routers r) (fun i => i) r
    (fun b r0 =>
      { r0 with
        eject := (r0.outputs.length : Int)
        outputs := r0.outputs ++ [Chan.eject b] })
    ?_ ?_ (List.range n) st
    (by simpa using List.nodup_range n)
    r (List.mem_range.2 hr) rfl
  · intro st2 b hb
    simp only [ejStep, updRouter]
    exact if_neg fun hr2 => hb hr2.symm
  · intro st2 b hb
    simp only [ejStep, updRouter]
    rw [if_pos hb.symm]

/-- Destination recorded by the X+ pass: the X+ in-plane channel of
`(x,y,z)` is registered as an input on `((x+1)%X, y, z)`. -/
theorem xPass_dest (cfg : CakeCfg) (st : BuildSt) {x y z : Nat}
    (hx : x < cfg.X) (hy : y < cfg.Y) (hz : z < cfg.Z) :
    ((tripleItems cfg.X cfg.Y cfg.Z).foldl (xStep cfg) st).dest
        (inplaneChannel (cfg.nodeId x y z) 0) =
      some (cfg.nodeId ((x + 1) % cfg.X) y z) := by
  have h := foldl_obs_key (xStep cfg)
    (fun s => s.dest (inplaneChannel (cfg.nodeId x y z) 0))
    (fun i => cfg.nodeId i.2.2 i.2.1 i.1) (cfg.nodeId x y z)
    (fun b _ => some (cfg.nodeId ((b.2.2 + 1) % cfg.X) b.2.1 b.1))
    (fun st2 b hb => by
      simp only [xStep, updDest]
      rw [if_neg]
      intro hc
      apply hb
      dsimp only
      simp only [inplaneChannel] at hc
      omega)
    (fun st2 b hb => by
      dsimp only at hb
      simp only [xStep, updDest]
      rw [if_pos (by rw [hb])])
    (tripleItems cfg.X cfg.Y cfg.Z) st
    (by rw [tripleItems_map_nodeId]; exact List.nodup_range _)
    (z, y, x) (mem_tripleItems hx hy hz) rfl
  dsimp only at h
  rw [h]

/-- Destination recorded by the Y+ pass: the Y+ in-plane channel of
`(x,y,z)` is registered as an input on `(x, (y+1)%Y, z)`. -/
theorem yPass_dest (cfg : CakeCfg) (st : BuildSt) {x y z : Nat}
    (hx : x < cfg.X) (hy : y < cfg.Y) (hz : z < cfg.Z) :
    ((tripleItems cfg.X cfg.Y cfg.Z).foldl (yStep cfg) st).dest
        (inplaneChannel (cfg.nodeId x y z) 1) =
      some (cfg.nodeId x ((y + 1) % cfg.Y) z) := by
  have h := foldl_obs_key (yStep cfg)
    (fun s => s.dest (inplaneChannel (cfg.nodeId x y z) 1))
    (fun i => cfg.nodeId i.2.2 i.2.1 i.1) (cfg.nodeId x y z)
    (fun b _ => some (cfg.nodeId b.2.2 ((b.2.1 + 1) % cfg.Y) b.1))
    (fun st2 b hb => by
      simp only [yStep, updDest]
      rw [if_neg]
      intro hc
      apply hb
      dsimp only
      simp only [inplaneChannel] at hc
      omega)
    (fun st2 b hb => by
      dsimp only at hb
      simp only [yStep, updDest]
      rw [if_pos (by rw [hb])])
    (tripleItems cfg.X cfg.Y cfg.Z) st
    (by rw [tripleItems_map_nodeId]; exact List.nodup_range _)
    (z, y, x) (mem_tripleItems hx hy hz) rfl
  dsimp only at h
  rw [h]

/-- The Y+ pass only writes odd channel ids, so it preserves the recorded
destination of every even channel id. -/
theorem yPass_dest_even_frame (cfg : CakeCfg) (st : BuildSt) {c : Nat}
    (hc : c % 2 = 0) :
    ((tripleItems cfg.X cfg.Y cfg.Z).foldl (yStep cfg) st).dest c = st.dest c := by
  refine foldl_obs_frame (yStep cfg) (fun s => s.dest c) (fun _ => True) ?_ _ st
    (fun b _ => trivial)
  intro st2 b _
  simp only [yStep, updDest]
  rw [if_neg]
  simp only [inplaneChannel]
  omega

/-- The vertical pass only writes channel ids at or above
`_inplane_channels`, so it preserves every in-plane destination. -/
theorem vPass_dest_inplane_frame (cfg : CakeCfg) (st : BuildSt) {c : Nat}
    (hc : c < cfg.inplaneChannels) :
    ((pairItems cfg.elevators.length cfg.Z).foldl (vStep cfg) st).dest c =
      st.dest c := by
  refine foldl_obs_frame (vStep cfg) (fun s => s.dest c) (fun _ => True) ?_ _ st
    (fun b _ => trivial)
  intro st2 b _
  simp only [vStep, updDest, CakeCfg.upChannel, CakeCfg.downChannel]
  rw [if_neg (by omega), if_neg (by omega)]

/-- The injection/ejection pass never writes channel destinations. -/
theorem ejPass_dest_frame (st : BuildSt) {n c : Nat} :
    ((List.range n).foldl ejStep st).dest c = st.dest c := by
  refine foldl_obs_frame ejStep (fun s => s.dest c) (fun _ => True) ?_ _ st
    (fun b _ => trivial)
  intro st2 b _
  rfl

/-- Destination recorded by the vertical pass for an up channel:
`(ex, ey, (z+1)%Z)`. -/
theorem vPass_dest_up (cfg : CakeCfg) (st : BuildSt) {ei z : Nat}
    (hei : ei < cfg.elevators.length) (hz : z < cfg.Z) :
    ((pairItems cfg.elevators.length cfg.Z).foldl (vStep cfg) st).dest
        (cfg.upChannel ei z) =
      some (cfg.nodeId (cfg.elevators.getD ei (0, 0)).1
        (cfg.elevators.getD ei (0, 0)).2 ((z + 1) % cfg.Z)) := by
  have h := foldl_obs_key (vStep cfg) (fun s => s.dest (cfg.upChannel ei z))
    (fun i => i.1 * cfg.Z + i.2) (ei * cfg.Z + z)
    (fun b _ => some (cfg.nodeId (cfg.elevators.getD b.1 (0, 0)).1
      (cfg.elevators.getD b.1 (0, 0)).2 ((b.2 + 1) % cfg.Z)))
    (fun st2 b hb => by
      dsimp only at hb
      simp only [vStep, updDest, CakeCfg.upChannel, CakeCfg.downChannel]
      rw [if_neg (by omega), if_neg (by omega)])
    (fun st2 b hb => by
      dsimp only at hb
      simp only [vStep, updDest, CakeCfg.upChannel, CakeCfg.downChannel]
      rw [if_neg (by omega), if_pos (by omega)])
    (pairItems cfg.elevators.length cfg.Z) st
    (by rw [pairItems_map_key]; exact List.nodup_range _)
    (ei, z) (mem_pairItems hei hz) rfl
  dsimp only at h
  rw [h]

/-- Destination recorded by the vertical pass for a down channel:
`(ex, ey, (z-1+Z)%Z)`, written `(z+Z-1)%Z` over `Nat`. -/
theorem vPass_dest_dn (cfg : CakeCfg) (st : BuildSt) {ei z : Nat}
    (hei : ei < cfg.elevators.length) (hz : z < cfg.Z) :
    ((pairItems cfg.elevators.length cfg.Z).foldl (vStep cfg) st).dest
        (cfg.downChannel ei z) =
      some (cfg.nodeId (cfg.elevators.getD ei (0, 0)).1
        (cfg.elevators.getD ei (0, 0)).2 ((z + cfg.Z - 1) % cfg.Z)) := by
  have h := foldl_obs_key (vStep cfg) (fun s => s.dest (cfg.downChannel ei z))
    (fun i => i.1 * cfg.Z + i.2) (ei * cfg.Z + z)
    (fun b _ => some (cfg.nodeId (cfg.elevators.getD b.1 (0, 0)).1
      (cfg.elevators.getD b.1 (0, 0)).2 ((b.2 + cfg.Z - 1) % cfg.Z)))
    (fun st2 b hb => by
      dsimp only at hb
      simp only [vStep, updDest, CakeCfg.upChannel, CakeCfg.downChannel]
      rw [if_neg (by omega), if_neg (by omega)])
    (fun st2 b hb => by
      dsimp only at hb
      simp only [vStep, updDest, CakeCfg.upChannel, CakeCfg.downChannel]
      rw [if_pos (by omega)])
    (pairItems cfg.elevators.length cfg.Z) st
    (by rw [pairItems_map_key]; exact List.nodup_range _)
    (ei, z) (mem_pairItems hei hz) rfl
  dsimp only at h
  rw [h]

/-! ## Final build state per router and per channel -/

/-- Final state of a non-elevator router after `_BuildNet`: outputs are
exactly X+, Y+, ejection (in that order), `xp = 0`, `yp = 1`, `eject = 2`,
and `zup = zdn = -1` are never written. -/
theorem buildNet_routers_not_elev (cfg : CakeCfg) {x y z : Nat}
    (hx : x < cfg.X) (hy : y < cfg.Y) (hz : z < cfg.Z)
    (hrange : ∀ p ∈ cfg.elevators, p.1 < cfg.X ∧ p.2 < cfg.Y)
    (hne : (x, y) ∉ cfg.elevators) :
    cfg.buildNet.routers (cfg.nodeId x y z) =
      ⟨[Chan.net (inplaneChannel (cfg.nodeId x y z) 0),
        Chan.net (inplaneChannel (cfg.nodeId x y z) 1),
        Chan.eject (cfg.nodeId x y z)], 0, 1, -1, -1, 2⟩ := by
  simp only [CakeCfg.buildNet]
  rw [ejPass_routers _ (nodeId_lt cfg hx hy hz),
    vPass_routers_not_elev cfg _ hx hy hrange hne,
    yPass_routers cfg _ hx hy hz,
    xPass_routers cfg _ hx hy hz]
  rfl

/-- Final state of an elevator router after `_BuildNet`: outputs are exactly
X+, Y+, Z up, Z down, ejection (in that order) with
`xp = 0`, `yp = 1`, `zup = 2`, `zdn = 3`, `eject = 4`. -/
theorem buildNet_routers_elev (cfg : CakeCfg) {x y z ei : Nat}
    (hx : x < cfg.X) (hy : y < cfg.Y) (hz : z < cfg.Z)
    (hnd : cfg.elevators.Nodup)
    (hrange : ∀ p ∈ cfg.elevators, p.1 < cfg.X ∧ p.2 < cfg.Y)
    (hei : ei < cfg.elevators.length)
    (hget : cfg.elevators.get ⟨ei, hei⟩ = (x, y)) :
    cfg.buildNet.routers (cfg.nodeId x y z) =
      ⟨[Chan.net (inplaneChannel (cfg.nodeId x y z) 0),
        Chan.net (inplaneChannel (cfg.nodeId x y z) 1),
        Chan.net (cfg.upChannel ei z),
        Chan.net (cfg.downChannel ei z),
        Chan.eject (cfg.nodeId x y z)], 0, 1, 2, 3, 4⟩ := by
  simp only [CakeCfg.buildNet]
  rw [ejPass_routers _ (nodeId_lt cfg hx hy hz),
    vPass_routers_elev cfg _ hz hnd hrange hei hget,
    yPass_routers cfg _ hx hy hz,
    xPass_routers cfg _ hx hy hz]
  rfl

/-- Final destination of the X+ in-plane channel of router `(x,y,z)`. -/
theorem buildNet_dest_xplus (cfg : CakeCfg) {x y z : Nat}
    (hx : x < cfg.X) (hy : y < cfg.Y) (hz : z < cfg.Z) :
    cfg.buildNet.dest (inplaneChannel (cfg.nodeId x y z) 0) =
      some (cfg.nodeId ((x + 1) % cfg.X) y z) := by
  have hlt := nodeId_lt cfg hx hy hz
  simp only [CakeCfg.buildNet]
  rw [ejPass_dest_frame,
    vPass_dest_inplane_frame cfg _
      (by simp only [inplaneChannel, CakeCfg.inplaneChannels]; omega),
    yPass_dest_even_frame cfg _ (by simp only [inplaneChannel]; omega),
    xPass_dest cfg _ hx hy hz]

/-- Final destination of the Y+ in-plane channel of router `(x,y,z)`. -/
theorem buildNet_dest_yplus (cfg : CakeCfg) {x y z : Nat}
    (hx : x < cfg.X) (hy : y < cfg.Y) (hz : z < cfg.Z) :
    cfg.buildNet.dest (inplaneChannel (cfg.nodeId x y z) 1) =
      some (cfg.nodeId x ((y + 1) % cfg.Y) z) := by
  have hlt := nodeId_lt cfg hx hy hz
  simp only [CakeCfg.buildNet]
  rw [ejPass_dest_frame,
    vPass_dest_inplane_frame cfg _
      (by simp only [inplaneChannel, CakeCfg.inplaneChannels]; omega),
    yPass_dest cfg _ hx hy hz]

/-- Final destination of the up channel of elevator `ei` at layer `z`. -/
theorem buildNet_dest_up (cfg : CakeCfg) {x y z ei : Nat} (hz : z < cfg.Z)
    (hei : ei < cfg.elevators.length)
    (hget : cfg.elevators.get ⟨ei, hei⟩ = (x, y)) :
    cfg.buildNet.dest (cfg.upChannel ei z) =
      some (cfg.nodeId x y ((z + 1) % cfg.Z)) := by
  simp only [CakeCfg.buildNet]
  rw [ejPass_dest_frame, vPass_dest_up cfg _ hei hz,
    getD_eq_get (0, 0) cfg.elevators ei hei, hget]

/-- Final destination of the down channel of elevator `ei` at layer `z`. -/
theorem buildNet_dest_dn (cfg : CakeCfg) {x y z ei : Nat} (hz : z < cfg.Z)
    (hei : ei < cfg.elevators.length)
    (hget : cfg.elevators.get ⟨ei, hei⟩ = (x, y)) :
    cfg.buildNet.dest (cfg.downChannel ei z) =
      some (cfg.nodeId x y ((z + cfg.Z - 1) % cfg.Z)) := by
  simp only [CakeCfg.buildNet]
  rw [ejPass_dest_frame, vPass_dest_dn cfg _ hei hz,
    getD_eq_get (0, 0) cfg.elevators ei hei, hget]

/-! ## Port slot correctness and port index values (claims C1 and C3) -/

/-- C1: after `_BuildNet`, for every router `(x,y,z)`, the output channel
recorded at slot `xp` is the channel whose destination router is
`((x+1)%X, y, z)`; the one at `yp` goes to `(x, (y+1)%Y, z)`; for an
elevator router (elevator index `ei`) the one at `zup` goes to
`(x, y, (z+1)%Z)` and the one at `zdn` goes to `(x, y, (z-1+Z)%Z)`; and the
channel at `eject` is the router's own ejection channel. -/
theorem cake_port_slot_correctness (cfg : CakeCfg) (x y z : Nat)
    (hx : x < cfg.X) (hy : y < cfg.Y) (hz : z < cfg.Z)
    (hnd : cfg.elevators.Nodup)
    (hrange : ∀ p ∈ cfg.elevators, p.1 < cfg.X ∧ p.2 < cfg.Y) :
    ((cfg.buildNet.routers (cfg.nodeId x y z)).outputs.get?
        (cfg.buildNet.routers (cfg.nodeId x y z)).xp.toNat =
      some (Chan.net (inplaneChannel (cfg.nodeId x y z) 0)) ∧
     cfg.buildNet.dest (inplaneChannel (cfg.nodeId x y z) 0) =
      some (cfg.nodeId ((x + 1) % cfg.X) y z)) ∧
    ((cfg.buildNet.routers (cfg.nodeId x y z)).outputs.get?
        (cfg.buildNet.routers (cfg.nodeId x y z)).yp.toNat =
      some (Chan.net (inplaneChannel (cfg.nodeId x y z) 1)) ∧
     cfg.buildNet.dest (inplaneChannel (cfg.nodeId x y z) 1) =
      some (cfg.nodeId x ((y + 1) % cfg.Y) z)) ∧
    (∀ ei (hei : ei < cfg.elevators.length),
      cfg.elevators.get ⟨ei, hei⟩ = (x, y) →
      (cfg.buildNet.routers (cfg.nodeId x y z)).outputs.get?
          (cfg.buildNet.routers (cfg.nodeId x y z)).zup.toNat =
        some (Chan.net (cfg.upChannel ei z)) ∧
      cfg.buildNet.dest (cfg.upChannel ei z) =
        some (cfg.nodeId x y ((z + 1) % cfg.Z)) ∧
      (cfg.buildNet.routers (cfg.nodeId x y z)).outputs.get?
          (cfg.buildNet.routers (cfg.nodeId x y z)).zdn.toNat =
        some (Chan.net (cfg.downChannel ei z)) ∧
      cfg.buildNet.dest (cfg.downChannel ei z) =
        some (cfg.nodeId x y ((z + cfg.Z - 1) % cfg.Z))) ∧
    (cfg.buildNet.routers (cfg.nodeId x y z)).outputs.get?
        (cfg.buildNet.routers (cfg.nodeId x y z)).eject.toNat =
      some (Chan.eject (cfg.nodeId x y z)) := by
  refine ⟨⟨?_, buildNet_dest_xplus cfg hx hy hz⟩,
    ⟨?_, buildNet_dest_yplus cfg hx hy hz⟩,
    fun ei hei hget => ⟨?_, buildNet_dest_up cfg hz hei hget, ?_,
      buildNet_dest_dn cfg hz hei hget⟩, ?_⟩
  · by_cases hmem : (x, y) ∈ cfg.elevators
    · obtain ⟨⟨ei0, hei0⟩, hget0⟩ := List.mem_iff_get.1 hmem
      rw [buildNet_routers_elev cfg hx hy hz hnd hrange hei0 hget0]
      rfl
    · rw [buildNet_routers_not_elev cfg hx hy hz hrange hmem]
      rfl
  · by_cases hmem : (x, y) ∈ cfg.elevators
    · obtain ⟨⟨ei0, hei0⟩, hget0⟩ := List.mem_iff_get.1 hmem
      rw [buildNet_routers_elev cfg hx hy hz hnd hrange hei0 hget0]
      rfl
    · rw [buildNet_routers_not_elev cfg hx hy hz hrange hmem]
      rfl
  · rw [buildNet_routers_elev cfg hx hy hz hnd hrange hei hget]
    rfl
  · rw [buildNet_routers_elev cfg hx hy hz hnd hrange hei hget]
    rfl
  · by_cases hmem : (x, y) ∈ cfg.elevators
    · obtain ⟨⟨ei0, hei0⟩, hget0⟩ := List.mem_iff_get.1 hmem
      rw [buildNet_routers_elev cfg hx hy hz hnd hrange hei0 hget0]
      rfl
    · rw [buildNet_routers_not_elev cfg hx hy hz hrange hmem]
      rfl

/-- Witness for C1 on a 1×1×1 Cake whose single column (0,0) is an elevator:
node id 0, in-plane channels 0 and 1, vertical channels 2 and 3, all links
self-loops back to node 0. -/
theorem cake_port_slot_correctness_witness :
    ((0 : Nat) < 1 ∧ [((0 : Nat), (0 : Nat))].Nodup ∧
      (∀ p ∈ [((0 : Nat), (0 : Nat))], p.1 < 1 ∧ p.2 < 1)) ∧
    ((((⟨1, 1, 1, [(0, 0)]⟩ : CakeCfg).buildNet.routers 0).outputs.get? ((⟨1, 1, 1, [(0, 0)]⟩ : CakeCfg).buildNet.routers 0).xp.toNat =
        some (Chan.net 0) ∧
      (⟨1, 1, 1, [(0, 0)]⟩ : CakeCfg).buildNet.dest 0 = some 0) ∧
     (((⟨1, 1, 1, [(0, 0)]⟩ : CakeCfg).buildNet.routers 0).outputs.get? ((⟨1, 1, 1, [(0, 0)]⟩ : CakeCfg).buildNet.routers 0).yp.toNat =
        some (Chan.net 1) ∧
      (⟨1, 1, 1, [(0, 0)]⟩ : CakeCfg).buildNet.dest 1 = some 0) ∧
     (∀ ei (hei : ei < ([((0 : Nat), (0 : Nat))] : List (Nat × Nat)).length),
       ([((0 : Nat), (0 : Nat))] : List (Nat × Nat)).get ⟨ei, hei⟩ = (0, 0) →
       ((⟨1, 1, 1, [(0, 0)]⟩ : CakeCfg).buildNet.routers 0).outputs.get? ((⟨1, 1, 1, [(0, 0)]⟩ : CakeCfg).buildNet.routers 0).zup.toNat =
          some (Chan.net ((⟨1, 1, 1, [(0, 0)]⟩ : CakeCfg).upChannel ei 0)) ∧
       (⟨1, 1, 1, [(0, 0)]⟩ : CakeCfg).buildNet.dest ((⟨1, 1, 1, [(0, 0)]⟩ : CakeCfg).upChannel ei 0) = some 0 ∧
       ((⟨1, 1, 1, [(0, 0)]⟩ : CakeCfg).buildNet.routers 0).outputs.get? ((⟨1, 1, 1, [(0, 0)]⟩ : CakeCfg).buildNet.routers 0).zdn.toNat =
          some (Chan.net ((⟨1, 1, 1, [(0, 0)]⟩ : CakeCfg).downChannel ei 0)) ∧
       (⟨1, 1, 1, [(0, 0)]⟩ : CakeCfg).buildNet.dest ((⟨1, 1, 1, [(0, 0)]⟩ : CakeCfg).downChannel ei 0) = some 0) ∧
     ((⟨1, 1, 1, [(0, 0)]⟩ : CakeCfg).buildNet.routers 0).outputs.get? ((⟨1, 1, 1, [(0, 0)]⟩ : CakeCfg).buildNet.routers 0).eject.toNat =
        some (Chan.eject 0)) :=
  ⟨⟨by decide, by decide, by decide⟩,
   cake_port_slot_correctness ⟨1, 1, 1, [(0, 0)]⟩ 0 0 0 (by decide) (by decide)
     (by decide) (by decide) (by decide)⟩

/-- C3: after `_BuildNet`, an elevator router records port indices exactly
`xp = 0`, `yp = 1`, `zup = 2`, `zdn = 3`, `eject = 4`; a non-elevator router
records `xp = 0`, `yp = 1`, `eject = 2` with `zup = zdn = -1`. -/
theorem cake_port_index_values (cfg : CakeCfg) (x y z : Nat)
    (hx : x < cfg.X) (hy : y < cfg.Y) (hz : z < cfg.Z)
    (hnd : cfg.elevators.Nodup)
    (hrange : ∀ p ∈ cfg.elevators, p.1 < cfg.X ∧ p.2 < cfg.Y) :
    ((x, y) ∈ cfg.elevators →
      (cfg.buildNet.routers (cfg.nodeId x y z)).xp = 0 ∧
      (cfg.buildNet.routers (cfg.nodeId x y z)).yp = 1 ∧
      (cfg.buildNet.routers (cfg.nodeId x y z)).zup = 2 ∧
      (cfg.buildNet.routers (cfg.nodeId x y z)).zdn = 3 ∧
      (cfg.buildNet.routers (cfg.nodeId x y z)).eject = 4) ∧
    ((x, y) ∉ cfg.elevators →
      (cfg.buildNet.routers (cfg.nodeId x y z)).xp = 0 ∧
      (cfg.buildNet.routers (cfg.nodeId x y z)).yp = 1 ∧
      (cfg.buildNet.routers (cfg.nodeId x y z)).eject = 2 ∧
      (cfg.buildNet.routers (cfg.nodeId x y z)).zup = -1 ∧
      (cfg.buildNet.routers (cfg.nodeId x y z)).zdn = -1) := by
  constructor
  · intro hmem
    obtain ⟨⟨ei0, hei0⟩, hget0⟩ := List.mem_iff_get.1 hmem
    rw [buildNet_routers_elev cfg hx hy hz hnd hrange hei0 hget0]
    exact ⟨rfl, rfl, rfl, rfl, rfl⟩
  · intro hmem
    rw [buildNet_routers_not_elev cfg hx hy hz hrange hmem]
    exact ⟨rfl, rfl, rfl, rfl, rfl⟩

/-- Witness for C3 on a 2×2×2 Cake with a single elevator at (1,1):
the elevator router (1,1,0) has node id 3 and both implications of the
claim are available, the elevator one applying. -/
theorem cake_port_index_values_witness :
    ((1 : Nat) < 2 ∧ [((1 : Nat), (1 : Nat))].Nodup ∧
      (∀ p ∈ [((1 : Nat), (1 : Nat))], p.1 < 2 ∧ p.2 < 2)) ∧
    (((1, 1) ∈ ([((1 : Nat), (1 : Nat))] : List (Nat × Nat)) →
      ((⟨2, 2, 2, [(1, 1)]⟩ : CakeCfg).buildNet.routers
        ((⟨2, 2, 2, [(1, 1)]⟩ : CakeCfg).nodeId 1 1 0)).xp = 0 ∧
      ((⟨2, 2, 2, [(1, 1)]⟩ : CakeCfg).buildNet.routers
        ((⟨2, 2, 2, [(1, 1)]⟩ : CakeCfg).nodeId 1 1 0)).yp = 1 ∧
      ((⟨2, 2, 2, [(1, 1)]⟩ : CakeCfg).buildNet.routers
        ((⟨2, 2, 2, [(1, 1)]⟩ : CakeCfg).nodeId 1 1 0)).zup = 2 ∧
      ((⟨2, 2, 2, [(1, 1)]⟩ : CakeCfg).buildNet.routers
        ((⟨2, 2, 2, [(1, 1)]⟩ : CakeCfg).nodeId 1 1 0)).zdn = 3 ∧
      ((⟨2, 2, 2, [(1, 1)]⟩ : CakeCfg).buildNet.routers
        ((⟨2, 2, 2, [(1, 1)]⟩ : CakeCfg).nodeId 1 1 0)).eject = 4) ∧
    ((1, 1) ∉ ([((1 : Nat), (1 : Nat))] : List (Nat × Nat)) →
      ((⟨2, 2, 2, [(1, 1)]⟩ : CakeCfg).buildNet.routers
        ((⟨2, 2, 2, [(1, 1)]⟩ : CakeCfg).nodeId 1 1 0)).xp = 0 ∧
      ((⟨2, 2, 2, [(1, 1)]⟩ : CakeCfg).buildNet.routers
        ((⟨2, 2, 2, [(1, 1)]⟩ : CakeCfg).nodeId 1 1 0)).yp = 1 ∧
      ((⟨2, 2, 2, [(1, 1)]⟩ : CakeCfg).buildNet.routers
        ((⟨2, 2, 2, [(1, 1)]⟩ : CakeCfg).nodeId 1 1 0)).eject = 2 ∧
      ((⟨2, 2, 2, [(1, 1)]⟩ : CakeCfg).buildNet.routers
        ((⟨2, 2, 2, [(1, 1)]⟩ : CakeCfg).nodeId 1 1 0)).zup = -1 ∧
      ((⟨2, 2, 2, [(1, 1)]⟩ : CakeCfg).buildNet.routers
        ((⟨2, 2, 2, [(1, 1)]⟩ : CakeCfg).nodeId 1 1 0)).zdn = -1)) :=
  ⟨⟨by decide, by decide, by decide⟩,
   cake_port_index_values ⟨2, 2, 2, [(1, 1)]⟩ 1 1 0 (by decide) (by decide)
     (by decide) (by decide) (by decide)⟩

end Booksim
